import Mathlib

/-!
# HomeTheater — verification of the scanner, enrichment and streaming core

Shallow embedding of `src/app.py` (and, where cited, `src/backend.py`):
filename parsing (`get_smart_title`), the directory scan
(`scan_videos`), path validation and the `/play/<id>` route, the
`/api/data` route's series sync, the metadata worker, and the JSON
cache round trip (`save_cache` / `load_cache`).

Python strings are modelled as `List Char` (with `String` wrappers),
machine-independent; the filesystem walk is passed in as the list of
`(directory, filename)` pairs it yields; `os.path.realpath` is modelled
as the identity on already-canonical paths, except that
`realpath("")` is the process working directory, passed as a `cwd`
parameter.  Regular-expression searches are embedded as explicit
first-match character scans mirroring each concrete pattern in the
source.
-/

namespace HomeTheater

/-- Python `\d` on ASCII input: decimal digit. -/
def digitCh (c : Char) : Bool := '0' ≤ c && c ≤ '9'

/-- Python `\s`: ASCII whitespace class (space, tab, LF, CR, VT, FF). -/
def pySpace (c : Char) : Bool :=
  c = ' ' || c = '\t' || c = '\n' || c = '\r' || c = '\x0b' || c = '\x0c'

/-- Python `\w` on ASCII input: letter, digit or underscore. -/
def wordCh (c : Char) : Bool :=
  digitCh c || ('a' ≤ c && c ≤ 'z') || ('A' ≤ c && c ≤ 'Z') || c = '_'

/-- ASCII lower-casing of one character (Python `str.lower` on ASCII). -/
def lcChar (c : Char) : Char :=
  if 'A' ≤ c && c ≤ 'Z' then Char.ofNat (c.toNat + 32) else c

/-- `int(...)` on a digit string: value of a list of decimal digits. -/
def natOfDigits (l : List Char) : Nat :=
  l.foldl (fun acc c => acc * 10 + (c.toNat - 48)) 0

/-- Case-sensitive literal prefix test (used for `Season`/`Episode` literals). -/
def litHere : List Char → List Char → Bool
  | [], _ => true
  | _ :: _, [] => false
  | t :: ts, c :: cs => (c = t) && litHere ts cs

/-- Case-insensitive literal prefix test (used for `re.IGNORECASE` junk tokens). -/
def litHereCI : List Char → List Char → Bool
  | [], _ => true
  | _ :: _, [] => false
  | t :: ts, c :: cs => (lcChar c = lcChar t) && litHereCI ts cs

/-- `str.startswith` on already-`realpath`ed paths. -/
def pyStartswith (s pre : String) : Bool := litHere pre.data s.data

/-- `str.lower().endswith(suffix)` for one suffix. -/
def lowerEndswith (s suffix : String) : Bool :=
  litHere suffix.data.reverse (s.data.map lcChar).reverse

/-- Python `str.strip()`: drop ASCII whitespace at both ends. -/
def pyStrip (l : List Char) : List Char :=
  ((l.dropWhile pySpace).reverse.dropWhile pySpace).reverse

/-- `os.path.basename` with `/` separators: the part after the last slash. -/
def basenameCh (l : List Char) : List Char :=
  ((l.reverse.takeWhile (fun c => c != '/'))).reverse

/-- `os.path.splitext(...)[0]`: drop the extension at the last dot, unless
every character before that dot is itself a dot (Python keeps dotfiles whole). -/
def stemCh (l : List Char) : List Char :=
  let revAfter := l.reverse.takeWhile (fun c => c != '.')
  if revAfter.length = l.length then l
  else
    let stem := l.take (l.length - revAfter.length - 1)
    if stem.all (fun c => c = '.') then l else stem

/-- Characters before the name of the matched year group:
the opening class `[\(\[\.\s]` of `get_smart_title`'s year regex. -/
def openerCh (c : Char) : Bool := c = '(' || c = '[' || c = '.' || pySpace c

/-- The closing class `[\)\]\.\s]` of the year regex. -/
def closerCh (c : Char) : Bool := c = ')' || c = ']' || c = '.' || pySpace c

/-- The group `(19\d{2}|20\d{2})`: a 4-digit year 1900–2099. -/
def yearDigits (d1 d2 d3 d4 : Char) : Bool :=
  ((d1 = '1' && d2 = '9') || (d1 = '2' && d2 = '0')) && digitCh d3 && digitCh d4

/-- Does `re.search(r'[\(\[\.\s](19\d{2}|20\d{2})[\)\]\.\s]', ...)` match at the
head of this suffix?  Returns the captured year digits when it does. -/
def yearHere : List Char → Option (List Char)
  | c1 :: d1 :: d2 :: d3 :: d4 :: c2 :: _ =>
      if openerCh c1 && yearDigits d1 d2 d3 d4 && closerCh c2
      then some [d1, d2, d3, d4] else none
  | _ => none

/-- `re.search` for the year pattern: the first (leftmost) match position
together with the captured year digits. -/
def yearSearch : List Char → Option (Nat × List Char)
  | [] => none
  | c :: rest =>
    match yearHere (c :: rest) with
    | some y => some (0, y)
    | none =>
      match yearSearch rest with
      | some (i, y) => some (i + 1, y)
      | none => none

/-- The filename (after `basename` and extension strip) has a bounded year
token starting at index `i` — exactly the condition under which the source's
year regex matches there. -/
def boundedYearAt (cs : List Char) (i : Nat) : Bool := (yearHere (cs.drop i)).isSome

/-- The four year digits sitting at match position `i`. -/
def yearStrAt (cs : List Char) (i : Nat) : List Char := ((cs.drop i).drop 1).take 4

/-- `re.sub(r'[\.\-_]', ' ', name)`: separators become spaces. -/
def sepToSpace (l : List Char) : List Char :=
  l.map (fun c => if c = '.' || c = '-' || c = '_' then ' ' else c)

/-- One step of `re.sub(r'\b' + tok + r'\b', '', name, re.IGNORECASE)`:
`fuel`-bounded left-to-right scan; `prev` is the original character before the
current position (word boundaries are judged on the original string). -/
def subWordGo (t : Char) (ts : List Char) :
    Nat → Option Char → List Char → List Char
  | 0, _, cs => cs
  | _ + 1, _, [] => []
  | fuel + 1, prev, c :: rest =>
    let prevOk := match prev with
      | none => true
      | some p => !(wordCh p)
    let tokLen := ts.length
    let after := rest.drop tokLen
    let afterOk := match after with
      | [] => true
      | a :: _ => !(wordCh a)
    if prevOk && (lcChar c = lcChar t) && litHereCI ts rest && afterOk then
      let lastc := (c :: rest.take tokLen).getLastD c
      subWordGo t ts fuel (some lastc) after
    else
      c :: subWordGo t ts fuel (some c) rest

/-- `re.sub(r'\b' + tok + r'\b', '', name, flags=re.IGNORECASE)` for one junk
token (all tokens in the source's denylist begin and end with word characters). -/
def subWord (tok : List Char) (cs : List Char) : List Char :=
  match tok with
  | [] => cs
  | t :: ts => subWordGo t ts cs.length none cs

/-- The junk-token denylist of `get_smart_title` in `src/app.py`. -/
def junkTokens : List (List Char) :=
  ["1080p".data, "720p".data, "480p".data, "BluRay".data, "WEB-DL".data,
   "DVDRip".data, "x264".data, "x265".data, "AAC".data, "DTS".data,
   "HDR".data, "BrRip".data, "WEBRip".data]

/-- All junk-token substitutions, applied in the source's order. -/
def junkRemoveAll (cs : List Char) : List Char :=
  junkTokens.foldl (fun acc tok => subWord tok acc) cs

/-- Scanner for `re.sub(r'\s+', ' ', name)`: `inRun` records whether the
previous character belonged to a whitespace run already emitted as `' '`. -/
def collapseWSGo (inRun : Bool) : List Char → List Char
  | [] => []
  | c :: rest =>
    if pySpace c then
      if inRun then collapseWSGo true rest else ' ' :: collapseWSGo true rest
    else
      c :: collapseWSGo false rest

/-- `re.sub(r'\s+', ' ', name)`: collapse whitespace runs to single spaces. -/
def collapseWS (l : List Char) : List Char := collapseWSGo false l

/-- The cleaning pipeline applied after year truncation: separators to
spaces, junk removal, whitespace collapse, strip. -/
def cleanedFrom (cs : List Char) : List Char :=
  pyStrip (collapseWS (junkRemoveAll (sepToSpace cs)))

/-- `os.path.basename` then `os.path.splitext`: the raw name a path is parsed from. -/
def stemChars (path : String) : List Char := stemCh (basenameCh path.data)

/-- The cleaned name before candidate construction: year-truncated then cleaned. -/
def cleanedOf (path : String) : List Char :=
  match yearSearch (stemChars path) with
  | some (i, _) => cleanedFrom ((stemChars path).take i)
  | none => cleanedFrom (stemChars path)

/-- `candidates = [name]` plus, when the name contains a colon, the
colon-stripped variant. -/
def candidateList (n : List Char) : List String :=
  if n.contains ':' then
    [String.mk n, String.mk (n.filter (fun c => c != ':'))]
  else
    [String.mk n]

/-- `get_smart_title` from `src/app.py`: candidate titles and the year. -/
def get_smart_title (path : String) : List String × String :=
  (candidateList (cleanedOf path),
   match yearSearch (stemChars path) with
   | some (_, y) => String.mk y
   | none => "")

/-! ## Episode-pattern searches (`src/app.py` lines 182, 215–222) -/

/-- `c` is `S` or `s` (the class `[Ss]`). -/
def isSChar (c : Char) : Bool := c = 'S' || c = 's'

/-- `c` is `E` or `e` (the class `[Ee]`). -/
def isEChar (c : Char) : Bool := c = 'E' || c = 'e'

/-- After at least one digit of `[Ss]\d+[Ee]\d+` has been consumed: succeed
when an `[Ee]` followed by a digit comes next, or another digit lets the run
continue. -/
def seAfter : List Char → Bool
  | a :: b :: rest => (isEChar a && digitCh b) || (digitCh a && seAfter (b :: rest))
  | _ => false

/-- The part of `[Ss]\d+[Ee]\d+` after the `[Ss]`: one or more digits, then
`[Ee]`, then a digit. -/
def seTail : List Char → Bool
  | a :: rest => digitCh a && seAfter (a :: rest)
  | [] => false

/-- First match position of `re.search(r'[Ss]\d+[Ee]\d+', f)`. -/
def sdEdIdx : List Char → Option Nat
  | [] => none
  | c :: rest =>
    if isSChar c && seTail rest then some 0
    else (sdEdIdx rest).map (· + 1)

/-- Does `re.search(r'[Ss]\d+[Ee]\d+', f)` match anywhere? -/
def sdEdSearch (cs : List Char) : Bool := (sdEdIdx cs).isSome

/-- Head of the list is a digit. -/
def firstDigit : List Char → Bool
  | d :: _ => digitCh d
  | [] => false

/-- `re.search(r'[X](\d+)', f)` for a one-character class `p`: at the first
`p`-then-digit position, the greedy digit run as an integer. -/
def digitRunSearch (p : Char → Bool) : List Char → Option Nat
  | [] => none
  | c :: rest =>
    if p c && firstDigit rest then
      some (natOfDigits (rest.takeWhile digitCh))
    else digitRunSearch p rest

/-- `re.search(r'[Ss](\d+)', f)`. -/
def sDigitsSearch (cs : List Char) : Option Nat := digitRunSearch isSChar cs

/-- `re.search(r'[Ee](\d+)', f)`. -/
def eDigitsSearch (cs : List Char) : Option Nat := digitRunSearch isEChar cs

/-- `[X]\d` matches at position `j`: a `p`-character directly followed by a
digit (the places where `re.search(r'[X](\d+)', ...)` can start a match). -/
def occAt (p : Char → Bool) (cs : List Char) (j : Nat) : Bool :=
  match cs.drop j with
  | a :: b :: _ => p a && digitCh b
  | _ => false

/-- `re.search(r'Season\s*(\d+)', f)` (case-sensitive literal). -/
def seasonWordSearch : List Char → Option Nat
  | [] => none
  | c :: rest =>
    if litHere "Season".data (c :: rest)
        && firstDigit (((c :: rest).drop 6).dropWhile pySpace) then
      some (natOfDigits ((((c :: rest).drop 6).dropWhile pySpace).takeWhile digitCh))
    else seasonWordSearch rest

/-- `re.search(r'Episode\s*(\d+)', f)` (case-sensitive literal). -/
def episodeWordSearch : List Char → Option Nat
  | [] => none
  | c :: rest =>
    if litHere "Episode".data (c :: rest)
        && firstDigit (((c :: rest).drop 7).dropWhile pySpace) then
      some (natOfDigits ((((c :: rest).drop 7).dropWhile pySpace).takeWhile digitCh))
    else episodeWordSearch rest

/-- `sm = re.search(r'[Ss](\d+)', f) or re.search(r'Season\s*(\d+)', f)`. -/
def smSearch (cs : List Char) : Option Nat :=
  (sDigitsSearch cs).orElse (fun _ => seasonWordSearch cs)

/-- `em = re.search(r'[Ee](\d+)', f) or re.search(r'Episode\s*(\d+)', f)`. -/
def emSearch (cs : List Char) : Option Nat :=
  (eDigitsSearch cs).orElse (fun _ => episodeWordSearch cs)

/-! ## Catalog data model (`src/app.py` dict shapes) -/

/-- A movie record as built by `scan_videos` / enriched by the worker.
`genre` is `none` until the enrichment worker first adds the key. -/
structure MovieRec where
  id : Nat
  title : String
  candidates : List String
  year : String
  path : String
  poster : String
  rating : String
  plot : String
  genre : Option String
deriving DecidableEq

/-- An episode record (`ep` dict in the series walk). -/
structure Ep where
  id : Nat
  title : String
  season : Nat
  episode : Nat
  path : String
  filename : String
deriving DecidableEq

/-- A series `meta` dict (string id = series name; always carries `genre`). -/
structure SeriesMeta where
  id : String
  title : String
  candidates : List String
  year : String
  poster : String
  rating : String
  plot : String
  genre : String
deriving DecidableEq

/-- A `series_data[name]` entry.  `year`/`genre` keys only appear after the
`/api/data` route first syncs them; `meta` is guarded by `'meta' in s`. -/
structure SeriesEntry where
  poster : String
  rating : String
  plot : String
  year : Option String
  genre : Option String
  seasons : List (Nat × List Ep)
  meta : Option SeriesMeta
deriving DecidableEq

/-- An item placed on `metadata_queue` (by value; queue items are the movie
dicts or series meta dicts at the moment they are enqueued). -/
inductive QItem where
  | mv (m : MovieRec)
  | sm (m : SeriesMeta)
deriving DecidableEq

/-- The `rating` field of a queued item. -/
def QItem.rating : QItem → String
  | .mv m => m.rating
  | .sm m => m.rating

/-- The recognized video extensions tuple `exts`. -/
def videoExts : List String :=
  [".mp4", ".mkv", ".avi", ".mov", ".wmv", ".flv", ".webm", ".m4v"]

/-- `f.lower().endswith(exts)`. -/
def videoExt (f : String) : Bool := videoExts.any (fun e => lowerEndswith f e)

/-! ## The scan (`scan_videos`, `src/app.py` lines 166–258)

The `os.walk` traversals are passed in as the `(directory, filename)` pairs
they yield, in walk order; `os.path.join` is modelled with `/`.

Object identity matters here: `existing_movies` and
`existing_movies_by_name` are built *once*, before the walk, and both hold
the very dict objects of `movies_data`; the by-name fallback mutates the
shared object's `'path'` in place, and `new_movies` accumulates references,
so two walk files sharing a basename end up as two references to one entry
carrying the last assigned path.  The model makes this explicit: the
pre-scan objects live in a `store` (position = object identity), the two
dicts are index maps computed once from the original values, the walk
mutates the store and accumulates `MovieRef`s, and `movies_data` after the
walk is the reference list resolved against the final store.  Queue items
are value snapshots taken at enqueue time; the scan never mutates a rating,
so the enqueue-time rating claims are unaffected by the aliasing (only a
queued object's path can change afterwards, which no claim concerns). -/

/-- A movie-walk file is kept when it has a video extension and does not
match `[Ss]\d+[Ee]\d+` (episode detection takes precedence). -/
def keepMovieFile (f : String) : Bool := videoExt f && !(sdEdSearch f.data)

/-- `os.path.join(root, f)` with `/` separators. -/
def mkPath (root f : String) : String := root ++ "/" ++ f

/-- The fresh movie dict synthesized for an unmatched file. -/
def newMovie (freshId : Nat) (path : String) : MovieRec :=
  { id := freshId
    title := (get_smart_title path).1.headD ""
    candidates := (get_smart_title path).1
    year := (get_smart_title path).2
    path := path
    poster := "/static/placeholder.png"
    rating := ""
    plot := ""
    genre := none }

/-- Fallback value for total store indexing (never reached at the valid
indices the dict maps produce). -/
def mdefault : MovieRec :=
  { id := 0, title := "", candidates := [], year := "", path := ""
    poster := "", rating := "", plot := "", genre := none }

/-- A slot of `new_movies`: a shared reference to a pre-scan movie object
(`.old i` = the object at store position `i`) or a freshly built dict. -/
inductive MovieRef where
  | old (i : Nat)
  | new (m : MovieRec)
deriving DecidableEq

/-- The mutable state of the movie walk: the pre-scan objects (`store`),
the references accumulated in `new_movies`, the enqueue-time snapshots,
and the fresh-id counter. -/
structure MWState where
  store : List MovieRec
  refs : List MovieRef
  queue : List QItem
  mid : Nat
deriving DecidableEq

/-- The entry a Python dict comprehension keeps for a key: the index of the
*last* list element satisfying `q`. -/
def lastIdxWhere (q : MovieRec → Bool) : List MovieRec → Option Nat
  | [] => none
  | m :: rest =>
    match lastIdxWhere q rest with
    | some i => some (i + 1)
    | none => if q m then some 0 else none

/-- `existing_movies = {m['path']: m for m in movies_data}`, as a map from
key to object position (keys fixed at build time). -/
def pathIdxOf (ms : List MovieRec) (p : String) : Option Nat :=
  lastIdxWhere (fun m => m.path = p) ms

/-- `existing_movies_by_name = {os.path.basename(m['path']): m ...}`. -/
def nameIdxOf (ms : List MovieRec) (f : String) : Option Nat :=
  lastIdxWhere (fun m => String.mk (basenameCh m.path.data) = f) ms

/-- One movie-walk file: exact-path lookup, then by-name fallback (which
mutates the shared object's path in place), else a fresh entry; any kept
entry still lacking a rating is enqueued (snapshot at enqueue time). -/
def movieStep (pIdx nIdx : String → Option Nat) (st : MWState)
    (rf : String × String) : MWState :=
  if keepMovieFile rf.2 then
    match pIdx (mkPath rf.1 rf.2) with
    | some i =>
      let m := st.store.getD i mdefault
      { st with refs := st.refs ++ [MovieRef.old i]
                queue := st.queue
                  ++ (if m.rating = "" then [QItem.mv m] else []) }
    | none =>
      match nIdx rf.2 with
      | some i =>
        let m := { st.store.getD i mdefault with path := mkPath rf.1 rf.2 }
        { st with store := st.store.set i m
                  refs := st.refs ++ [MovieRef.old i]
                  queue := st.queue
                    ++ (if m.rating = "" then [QItem.mv m] else []) }
      | none =>
        let m := newMovie st.mid (mkPath rf.1 rf.2)
        { st with refs := st.refs ++ [MovieRef.new m]
                  queue := st.queue ++ [QItem.mv m]
                  mid := st.mid + 1 }
  else st

/-- The movie walk of `scan_videos`, threading the mutable state file by
file in walk order. -/
def moviePhase (pIdx nIdx : String → Option Nat) :
    List (String × String) → MWState → MWState
  | [], st => st
  | rf :: rest, st => moviePhase pIdx nIdx rest (movieStep pIdx nIdx st rf)

/-- Reading one `new_movies` slot against the (final) store. -/
def resolveRef (store : List MovieRec) : MovieRef → MovieRec
  | .old i => store.getD i mdefault
  | .new m => m

/-- `movies_data` as observed after the walk: every reference resolved
against the final store state. -/
def resolveMovies (store : List MovieRec) (refs : List MovieRef) :
    List MovieRec :=
  refs.map (resolveRef store)

/-- The basename key under which the pre-scan object at store position `i`
sits in `existing_movies_by_name` (computed from its *original* path). -/
def basenameOrig (movies0 : List MovieRec) (i : Nat) : String :=
  String.mk (basenameCh ((movies0.getD i mdefault).path).data)

/-- No file still to be walked can hit the by-name dict entry of store
position `i` (and hence mutate or re-reference that object). -/
def noTouch (movies0 : List MovieRec) (files : List (String × String))
    (i : Nat) : Prop :=
  ∀ rf ∈ files, keepMovieFile rf.2 = true → rf.2 ≠ basenameOrig movies0 i

/-- Walk invariant tying a mid-walk state to the files not yet processed:
the store keeps its shape, a store object is either still original or
protected from all remaining files, and every referenced object is in
range and protected. -/
structure WalkInv (movies0 : List MovieRec)
    (files : List (String × String)) (st : MWState) : Prop where
  len : st.store.length = movies0.length
  origOr : ∀ i, i < movies0.length →
    st.store.getD i mdefault = movies0.getD i mdefault
      ∨ noTouch movies0 files i
  refsOk : ∀ i, MovieRef.old i ∈ st.refs →
    i < movies0.length ∧ noTouch movies0 files i

/-- Store invariant for identity stability: lengths agree, ids are never
mutated, and a mutated path is never one of the original dict keys. -/
structure StoreOK (movies0 store : List MovieRec) : Prop where
  len : store.length = movies0.length
  idp : ∀ i, i < movies0.length →
    (store.getD i mdefault).id = (movies0.getD i mdefault).id
    ∧ ((store.getD i mdefault).path = (movies0.getD i mdefault).path
        ∨ pathIdxOf movies0 ((store.getD i mdefault).path) = none)

/-- Reference invariant for identity stability: referenced positions are in
range, and synthesized entries carry paths missing from the original
path-keyed dict. -/
structure RefsOK (movies0 : List MovieRec) (refs : List MovieRef) : Prop where
  oldLt : ∀ i, MovieRef.old i ∈ refs → i < movies0.length
  newMiss : ∀ m, MovieRef.new m ∈ refs → pathIdxOf movies0 m.path = none

/-- The inferred series name: the primary title candidate, with any residual
`[Ss]\d+[Ee]\d+` fragment and everything after it split off and stripped. -/
def seriesNameOf (path : String) : String :=
  let sname0 := (get_smart_title path).1.headD ""
  match sdEdIdx sname0.data with
  | some k => String.mk (pyStrip (sname0.data.take k))
  | none => sname0

/-- One series-walk file: classified as an episode when it has a video
extension and both the season and the episode searches match. -/
def epFromFile (s_id : Nat) (root f : String) : Option Ep :=
  if videoExt f then
    match smSearch f.data, emSearch f.data with
    | some s, some e =>
      some { id := s_id, title := seriesNameOf (mkPath root f)
             season := s, episode := e
             path := mkPath root f, filename := f }
    | _, _ => none
  else none

/-- Append an episode into `new_series[sname][season]` (`defaultdict`
semantics: keys in first-insertion order, episodes appended). -/
def addToSeason (ss : List (Nat × List Ep)) (s : Nat) (ep : Ep) :
    List (Nat × List Ep) :=
  match ss with
  | [] => [(s, [ep])]
  | (k, l) :: rest =>
    if k = s then (k, l ++ [ep]) :: rest
    else (k, l) :: addToSeason rest s ep

/-- Append an episode into the grouped `new_series` structure. -/
def addEp (g : List (String × List (Nat × List Ep))) (ep : Ep) :
    List (String × List (Nat × List Ep)) :=
  match g with
  | [] => [(ep.title, [(ep.season, [ep])])]
  | (n, ss) :: rest =>
    if n = ep.title then (n, addToSeason ss ep.season ep) :: rest
    else (n, ss) :: addEp rest ep

/-- The series walk: collect episodes into `new_series`, threading the
global episode id counter `sid`. -/
def seriesCollect :
    List (String × String) → Nat → List (String × List (Nat × List Ep)) →
    List (String × List (Nat × List Ep)) × Nat
  | [], s_id, acc => (acc, s_id)
  | (root, f) :: rest, s_id, acc =>
    match epFromFile s_id root f with
    | some ep => seriesCollect rest (s_id + 1) (addEp acc ep)
    | none => seriesCollect rest s_id acc

/-- Python-dict lookup in an association list (unique keys: first match). -/
def lookupAssoc {α : Type} (l : List (String × α)) (k : String) : Option α :=
  match l with
  | [] => none
  | (k', v) :: rest => if k' = k then some v else lookupAssoc rest k

/-- `k in dict`. -/
def containsKey {α : Type} (l : List (String × α)) (k : String) : Bool :=
  (lookupAssoc l k).isSome

/-- The meta dict synthesized for a series seen for the first time. -/
def newSeriesMeta (name : String) : SeriesMeta :=
  { id := name, title := name, candidates := [name], year := ""
    poster := "/static/placeholder.png", rating := "", plot := "", genre := "" }

/-- `final_series[name]` as built from a meta and the grouped seasons. -/
def mkSeriesEntry (meta : SeriesMeta) (seasons : List (Nat × List Ep)) :
    SeriesEntry :=
  { poster := meta.poster, rating := meta.rating, plot := meta.plot
    year := none, genre := none, seasons := seasons, meta := some meta }

/-- The `final_series` loop: reuse `series_data[name]['meta']` when present
(enqueueing it when it lacks a rating), else synthesize and enqueue a fresh
meta unconditionally. -/
def finalSeriesPhase (oldSeries : List (String × SeriesEntry)) :
    List (String × List (Nat × List Ep)) →
    List (String × SeriesEntry) × List QItem
  | [] => ([], [])
  | (name, seasons) :: rest =>
    let out := finalSeriesPhase oldSeries rest
    match (lookupAssoc oldSeries name).bind (fun e => e.meta) with
    | some meta =>
      ((name, mkSeriesEntry meta seasons) :: out.1,
       (if meta.rating = "" then [QItem.sm meta] else []) ++ out.2)
    | none =>
      ((name, mkSeriesEntry (newSeriesMeta name) seasons) :: out.1,
       QItem.sm (newSeriesMeta name) :: out.2)

/-- First-wins choice between two optional values (`a or b`). -/
def orOpt {α : Type} (a b : Option α) : Option α :=
  match a with
  | some v => some v
  | none => b

/-- `old.update(new)` on a Python dict: existing keys are overwritten in
place, new keys are appended in `new`'s order. -/
def dictUpdate {α : Type} (old new : List (String × α)) :
    List (String × α) :=
  old.map (fun kv =>
    match lookupAssoc new kv.1 with
    | some v => (kv.1, v)
    | none => kv)
  ++ new.filter (fun kv => !(containsKey old kv.1))

/-- The discovered files of one scan (the two `os.walk` traversals; empty
when the corresponding root is unset or missing). -/
structure ScanInput where
  movieFiles : List (String × String)
  seriesFiles : List (String × String)
deriving DecidableEq

/-- The state written by one run of `scan_videos`. -/
structure ScanOut where
  movies : List MovieRec
  series : List (String × SeriesEntry)
  queue : List QItem
  mid : Nat
  sid : Nat
deriving DecidableEq

/-- `scan_videos` (`src/app.py` 166–258): the movie walk replaces
`movies_data` wholesale; the series walk groups episodes, rebuilds
`final_series` and *merges* it into `series_data` via `dict.update`. -/
def scan_videos (inp : ScanInput) (movies0 : List MovieRec)
    (series0 : List (String × SeriesEntry)) (mid0 sid0 : Nat) : ScanOut :=
  let st := moviePhase (pathIdxOf movies0) (nameIdxOf movies0)
    inp.movieFiles { store := movies0, refs := [], queue := [], mid := mid0 }
  let grouped := seriesCollect inp.seriesFiles sid0 []
  let fs := finalSeriesPhase series0 grouped.1
  { movies := resolveMovies st.store st.refs
    series := dictUpdate series0 fs.1
    queue := st.queue ++ fs.2
    mid := st.mid
    sid := grouped.2 }

/-! ## Path validation and the `/play/<id>` route (`src/app.py` 154–163, 312–394)

`os.path.realpath` is modelled as the identity on already-canonical inputs,
except that `realpath("")` is the process working directory `cwd` (so an
unset root degenerates to a `cwd` prefix check, exactly as in the source).
The filesystem is an oracle pair: `fsExists` for `os.path.exists` and
`fsSize` for `os.path.getsize` (`none` = the `try` around it raises). -/

/-- The configured roots (`config['movie_dir']`, `config['series_dir']`). -/
structure PlayCfg where
  movie_dir : String
  series_dir : String
deriving DecidableEq

/-- `_validate_path`: a plain `str.startswith` check against the two
`realpath`ed roots. -/
def validate_path (cwd : String) (cfg : PlayCfg) (realPath : String) : Bool :=
  let md := if cfg.movie_dir = "" then cwd else cfg.movie_dir
  let sd := if cfg.series_dir = "" then cwd else cfg.series_dir
  (md ≠ "" && pyStartswith realPath md) || (sd ≠ "" && pyStartswith realPath sd)

/-- What the spec demands instead (section 4.4: "the resolved absolute path
must be a strict descendant of one of the two configured roots"): the root
is set and `root ++ "/"` is a proper prefix of the path. -/
def spec_strict_descendant (root p : String) : Bool :=
  root ≠ "" && pyStartswith p (root ++ "/") && p ≠ root ++ "/"

/-- Target resolution in `play`: first movie with the id; otherwise the inner
loops over all series/seasons assign the first match of each episode list and
only break the innermost loop, so the last such assignment wins. -/
def findTarget (movies : List MovieRec)
    (series : List (String × SeriesEntry)) (vid : Nat) : Option String :=
  match movies.find? (fun m => m.id = vid) with
  | some m => some m.path
  | none =>
    series.foldl
      (fun acc kv =>
        kv.2.seasons.foldl
          (fun acc2 sl =>
            match sl.2.find? (fun ep => ep.id = vid) with
            | some ep => some ep.path
            | none => acc2)
          acc)
      none

/-- `os.path.splitext(path)[1].lower()`. -/
def extOf (path : String) : String :=
  let base := basenameCh path.data
  String.mk ((base.drop (stemCh base).length).map lcChar)

/-- Containers sent through the ffmpeg transcode branch. -/
def transcodeExts : List String := [".avi", ".wmv", ".flv", ".divx"]

/-- `re.search(r'(\d+)-(\d*)', range_header)`: at the first digit whose
greedy run is followed by `-`, capture the run and the optional end run. -/
def rangeSearch : List Char → Option (Nat × Option Nat)
  | [] => none
  | c :: rest =>
    if digitCh c &&
        (match ((c :: rest).dropWhile digitCh) with
         | '-' :: _ => true
         | _ => false) then
      let g1 := (c :: rest).takeWhile digitCh
      let afterDash := ((c :: rest).dropWhile digitCh).drop 1
      let g2 := afterDash.takeWhile digitCh
      some (natOfDigits g1, if g2.isEmpty then none else some (natOfDigits g2))
    else rangeSearch rest

/-- Responses of the `play` route, by shape: `stream status start length size`
is the byte-range branch (`Response(generate(), 206, ...)` with its
`Content-Range`); `transcode` is the piped-ffmpeg branch. -/
inductive PlayResp where
  | notFound
  | forbidden
  | fileNotFound
  | sizeError
  | transcode
  | stream (status : Nat) (start : Nat) (length : Int) (size : Nat)
deriving DecidableEq

/-- The number of file bytes the `generate()` loop yields: it reads until
`rem` is exhausted or the file ends at `size`. -/
def servedBytes (size start : Nat) (length : Int) : Nat :=
  min length.toNat (size - start)

/-- The `play` route (`src/app.py` 312–394). -/
def play (cwd : String) (cfg : PlayCfg) (movies : List MovieRec)
    (series : List (String × SeriesEntry)) (vid : Nat)
    (fsExists : String → Bool) (fsSize : String → Option Nat)
    (rangeHeader : Option String) : PlayResp :=
  match findTarget movies series vid with
  | none => .notFound
  | some path =>
    if !(validate_path cwd cfg path) then .forbidden
    else if !(fsExists path) then .fileNotFound
    else if transcodeExts.contains (extOf path) then .transcode
    else
      match fsSize path with
      | none => .sizeError
      | some size =>
        let sl : Nat × Int :=
          match rangeHeader with
          | none => (0, (size : Int))
          | some h =>
            match rangeSearch h.data with
            | none => (0, (size : Int))
            | some (s, some e) => (s, (e : Int) - (s : Int) + 1)
            | some (s, none) => (s, (size : Int) - (s : Int))
        .stream 206 sl.1 sl.2 size

/-! ## The `/api/data` route (`src/app.py` 269–283)

For every series entry that has a `meta` key the route writes the summary
fields back from `meta` before serialising — a catalog write performed by an
HTTP handler. -/

/-- The per-entry write-back `s['poster'] = s['meta'].get('poster')` … . -/
def get_data_sync (e : SeriesEntry) : SeriesEntry :=
  match e.meta with
  | some m =>
    { e with poster := m.poster, rating := m.rating, plot := m.plot
             year := some m.year, genre := some m.genre }
  | none => e

/-- The state of `series_data` after one `/api/data` request. -/
def get_data_series (ss : List (String × SeriesEntry)) :
    List (String × SeriesEntry) :=
  ss.map (fun kv => (kv.1, get_data_sync kv.2))

/-! ## The metadata worker (`src/app.py` 569–620)

`provider` abstracts the OMDB call: `none` covers a timeout, a malformed
response (`.json()` raising — both swallowed by the `except`) and a
`Response != 'True'` miss; `some res` is a hit.  `posterOk url` tells whether
the poster download-and-write succeeds.  Queue items (movie dicts and series
meta dicts alike) carry the fields the worker touches; the id is rendered as
the string used in the `/get_poster/{id}` reference. -/

/-- A successful OMDB response, with `Poster` already reduced to `none` when
absent or `'N/A'` and `Year` `none` when the key is absent. -/
structure OmdbRes where
  rating : String
  plot : String
  genre : String
  year : Option String
  poster : Option String
deriving DecidableEq

/-- A queue item as the worker sees it. -/
structure WItem where
  id : String
  title : String
  candidates : List String
  year : String
  poster : String
  rating : String
  plot : String
  genre : Option String
deriving DecidableEq

/-- One iteration of `metadata_worker` for one dequeued item. -/
def worker_step (apikey : String)
    (provider : String → String → Option OmdbRes)
    (posterOk : String → Bool) (item : WItem) : WItem :=
  if apikey = "" then item
  else
    match provider item.title item.year with
    | none => item
    | some res =>
      let item1 := { item with
        rating := res.rating, plot := res.plot, genre := some res.genre
        year := res.year.getD item.year }
      match res.poster with
      | none => item1
      | some url =>
        if posterOk url then { item1 with poster := "/get_poster/" ++ item.id }
        else item1

/-- Draining a queue: the loop dequeues each item once, processes it, and
never puts anything back. -/
def workerRun (apikey : String) (provider : String → String → Option OmdbRes)
    (posterOk : String → Bool) : List WItem → List WItem
  | [] => []
  | i :: rest =>
    worker_step apikey provider posterOk i ::
      workerRun apikey provider posterOk rest

/-! ## Cache persistence (`save_cache` / `load_cache`, `src/app.py` 70–87)

`json.dump`/`json.load` themselves are the Python standard library; the
embedding works at the JSON-value level: `save_cache` builds the document
`{"movies": movies_data, "series": series_data}` (with `json.dump`
stringifying the integer season keys), and the decoder reads back exactly
the keys the program accesses on loaded dicts.  `series_data` is a dict, so
its names are unique by construction and the element-wise object decoding
agrees with dict semantics. -/

/-- JSON values. -/
inductive Json where
  | jnull
  | jstr (s : String)
  | jnum (n : Int)
  | jarr (xs : List Json)
  | jobj (fields : List (String × Json))

/-- Read a JSON string. -/
def Json.getStr : Json → Option String
  | .jstr s => some s
  | _ => none

/-- Read a non-negative JSON number as a `Nat`. -/
def Json.getNat : Json → Option Nat
  | .jnum n => if n < 0 then none else some n.toNat
  | _ => none

/-- Read a JSON array. -/
def Json.getArr : Json → Option (List Json)
  | .jarr xs => some xs
  | _ => none

/-- Read a JSON object. -/
def Json.getObj : Json → Option (List (String × Json))
  | .jobj fields => some fields
  | _ => none

/-- Key lookup in a JSON object's field list. -/
def jlookup (fields : List (String × Json)) (k : String) : Option Json :=
  (fields.find? (fun kv => kv.1 = k)).map (fun kv => kv.2)

/-- Encode a list of strings. -/
def encodeStrList (l : List String) : Json := .jarr (l.map .jstr)

/-- Decode every element, failing when any element fails. -/
def optMapList {α β : Type} (g : α → Option β) : List α → Option (List β)
  | [] => some []
  | a :: rest =>
    match g a, optMapList g rest with
    | some b, some bs => some (b :: bs)
    | _, _ => none

/-- Decode a list of strings. -/
def decodeStrList (j : Json) : Option (List String) :=
  j.getArr.bind (optMapList Json.getStr)

/-- A movie dict as serialized (the `genre` key exists only once enriched). -/
def encodeMovie (m : MovieRec) : Json :=
  .jobj ([("id", .jnum (m.id : Int)), ("title", .jstr m.title),
          ("candidates", encodeStrList m.candidates), ("year", .jstr m.year),
          ("path", .jstr m.path), ("poster", .jstr m.poster),
          ("rating", .jstr m.rating), ("plot", .jstr m.plot)]
    ++ (match m.genre with
        | some g => [("genre", .jstr g)]
        | none => []))

/-- Decode a movie dict, via the keys the program reads. -/
def decodeMovie (j : Json) : Option MovieRec := do
  let o ← j.getObj
  let mid ← (jlookup o "id").bind Json.getNat
  let title ← (jlookup o "title").bind Json.getStr
  let candidates ← (jlookup o "candidates").bind decodeStrList
  let year ← (jlookup o "year").bind Json.getStr
  let path ← (jlookup o "path").bind Json.getStr
  let poster ← (jlookup o "poster").bind Json.getStr
  let rating ← (jlookup o "rating").bind Json.getStr
  let plot ← (jlookup o "plot").bind Json.getStr
  pure { id := mid, title := title, candidates := candidates, year := year
         path := path, poster := poster, rating := rating, plot := plot
         genre := (jlookup o "genre").bind Json.getStr }

/-- Encode an episode dict. -/
def encodeEp (e : Ep) : Json :=
  .jobj [("id", .jnum (e.id : Int)), ("title", .jstr e.title),
         ("season", .jnum (e.season : Int)),
         ("episode", .jnum (e.episode : Int)),
         ("path", .jstr e.path), ("filename", .jstr e.filename)]

/-- Decode an episode dict. -/
def decodeEp (j : Json) : Option Ep := do
  let o ← j.getObj
  let eid ← (jlookup o "id").bind Json.getNat
  let title ← (jlookup o "title").bind Json.getStr
  let season ← (jlookup o "season").bind Json.getNat
  let episode ← (jlookup o "episode").bind Json.getNat
  let path ← (jlookup o "path").bind Json.getStr
  let filename ← (jlookup o "filename").bind Json.getStr
  pure { id := eid, title := title, season := season, episode := episode
         path := path, filename := filename }

/-- Encode a series meta dict. -/
def encodeMeta (m : SeriesMeta) : Json :=
  .jobj [("id", .jstr m.id), ("title", .jstr m.title),
         ("candidates", encodeStrList m.candidates), ("year", .jstr m.year),
         ("poster", .jstr m.poster), ("rating", .jstr m.rating),
         ("plot", .jstr m.plot), ("genre", .jstr m.genre)]

/-- Decode a series meta dict. -/
def decodeMeta (j : Json) : Option SeriesMeta := do
  let o ← j.getObj
  let sid ← (jlookup o "id").bind Json.getStr
  let title ← (jlookup o "title").bind Json.getStr
  let candidates ← (jlookup o "candidates").bind decodeStrList
  let year ← (jlookup o "year").bind Json.getStr
  let poster ← (jlookup o "poster").bind Json.getStr
  let rating ← (jlookup o "rating").bind Json.getStr
  let plot ← (jlookup o "plot").bind Json.getStr
  let genre ← (jlookup o "genre").bind Json.getStr
  pure { id := sid, title := title, candidates := candidates, year := year
         poster := poster, rating := rating, plot := plot, genre := genre }

/-- `json.dump` stringifies the integer season keys of the in-memory dict. -/
def encodeSeasons (ss : List (Nat × List Ep)) : Json :=
  .jobj (ss.map (fun kv => (toString kv.1, .jarr (kv.2.map encodeEp))))

/-- Decode a seasons object: keys stay strings after a reload. -/
def decodeSeasons (j : Json) : Option (List (String × List Ep)) := do
  let o ← j.getObj
  optMapList (fun kv => (kv.2.getArr.bind (optMapList decodeEp)).map
    (fun eps => (kv.1, eps))) o

/-- A reloaded `series_data[name]` entry: season keys are strings now. -/
structure SeriesEntryL where
  poster : String
  rating : String
  plot : String
  year : Option String
  genre : Option String
  seasons : List (String × List Ep)
  meta : Option SeriesMeta
deriving DecidableEq

/-- Encode a series entry, in the dict's insertion order (`year`/`genre`
were added last, by the `/api/data` sync, when present). -/
def encodeEntry (e : SeriesEntry) : Json :=
  .jobj ([("poster", .jstr e.poster), ("rating", .jstr e.rating),
          ("plot", .jstr e.plot), ("seasons", encodeSeasons e.seasons)]
    ++ (match e.meta with
        | some m => [("meta", encodeMeta m)]
        | none => [])
    ++ (match e.year with
        | some y => [("year", .jstr y)]
        | none => [])
    ++ (match e.genre with
        | some g => [("genre", .jstr g)]
        | none => []))

/-- Decode a series entry. -/
def decodeEntry (j : Json) : Option SeriesEntryL := do
  let o ← j.getObj
  let poster ← (jlookup o "poster").bind Json.getStr
  let rating ← (jlookup o "rating").bind Json.getStr
  let plot ← (jlookup o "plot").bind Json.getStr
  let seasons ← (jlookup o "seasons").bind decodeSeasons
  pure { poster := poster, rating := rating, plot := plot
         year := (jlookup o "year").bind Json.getStr
         genre := (jlookup o "genre").bind Json.getStr
         seasons := seasons
         meta := (jlookup o "meta").bind decodeMeta }

/-- The in-memory catalog (`movies_data`, `series_data`). -/
structure Catalog where
  movies : List MovieRec
  series : List (String × SeriesEntry)
deriving DecidableEq

/-- The catalog as reconstructed from a reloaded snapshot. -/
structure CatalogL where
  movies : List MovieRec
  series : List (String × SeriesEntryL)
deriving DecidableEq

/-- `save_cache`: the document `{"movies": ..., "series": ...}`. -/
def save_cache (cat : Catalog) : Json :=
  .jobj [("movies", .jarr (cat.movies.map encodeMovie)),
         ("series", .jobj (cat.series.map (fun kv => (kv.1, encodeEntry kv.2))))]

/-- `load_cache` followed by the program's field accesses, with the
`.get('movies', [])` / `.get('series', {})` defaults. -/
def load_cache (j : Json) : Option CatalogL := do
  let o ← j.getObj
  let movies ← ((jlookup o "movies").getD (.jarr [])).getArr.bind
    (optMapList decodeMovie)
  let series ← ((jlookup o "series").getD (.jobj [])).getObj.bind
    (optMapList (fun kv => (decodeEntry kv.2).map (fun e => (kv.1, e))))
  pure { movies := movies, series := series }

/-- What a reload does to an in-memory entry: season keys become strings,
everything else survives unchanged. -/
def toLoadedEntry (e : SeriesEntry) : SeriesEntryL :=
  { poster := e.poster, rating := e.rating, plot := e.plot
    year := e.year, genre := e.genre
    seasons := e.seasons.map (fun kv => (toString kv.1, kv.2))
    meta := e.meta }

/-- The reload image of a whole catalog. -/
def toLoaded (cat : Catalog) : CatalogL :=
  { movies := cat.movies
    series := cat.series.map (fun kv => (kv.1, toLoadedEntry kv.2)) }

/-- All episodes of an in-memory catalog, flattened in catalog order. -/
def episodesOf (cat : Catalog) : List Ep :=
  (cat.series.map (fun kv => (kv.2.seasons.map Prod.snd).flatten)).flatten

/-- All episodes of a reloaded catalog, flattened in catalog order. -/
def episodesOfL (cat : CatalogL) : List Ep :=
  (cat.series.map (fun kv => (kv.2.seasons.map Prod.snd).flatten)).flatten

/-! ## Helper lemmas -/

theorem get_data_sync_idem (e : SeriesEntry) :
    get_data_sync (get_data_sync e) = get_data_sync e := by
  cases e with
  | mk poster rating plot year genre seasons meta =>
    cases meta <;> rfl

theorem get_data_series_map (ss : List (String × SeriesEntry)) :
    get_data_series (get_data_series ss) = get_data_series ss := by
  induction ss with
  | nil => rfl
  | cons kv rest ih =>
    simp only [get_data_series, List.map_cons] at *
    rw [get_data_sync_idem]
    exact congrArg _ (by simpa [get_data_series] using ih)

/-- Normal form of one worker iteration on a provider hit. -/
theorem worker_step_hit (key : String)
    (prov : String → String → Option OmdbRes) (pok : String → Bool)
    (item : WItem) (res : OmdbRes) (hkey : key ≠ "")
    (hres : prov item.title item.year = some res) :
    worker_step key prov pok item =
      { item with
        rating := res.rating, plot := res.plot, genre := some res.genre
        year := res.year.getD item.year
        poster :=
          match res.poster with
          | none => item.poster
          | some url =>
            if pok url then "/get_poster/" ++ item.id else item.poster } := by
  unfold worker_step
  rw [if_neg hkey, hres]
  cases hp : res.poster with
  | none => simp [hp]
  | some url => by_cases hok : pok url = true <;> simp [hp, hok]

/-- Normal form of one worker iteration on a provider miss/failure. -/
theorem worker_step_miss (key : String)
    (prov : String → String → Option OmdbRes) (pok : String → Bool)
    (item : WItem) (hres : prov item.title item.year = none) :
    worker_step key prov pok item = item := by
  unfold worker_step
  split
  · rfl
  · rw [hres]

theorem path_unique {ms : List MovieRec}
    (h : ms.Pairwise (fun a b => a.path ≠ b.path)) {m m0 : MovieRec}
    (hm : m ∈ ms) (hm0 : m0 ∈ ms) (hp : m.path = m0.path) : m = m0 := by
  induction ms with
  | nil => cases hm
  | cons x rest ih =>
    rcases List.pairwise_cons.mp h with ⟨hx, hrest⟩
    cases hm with
    | head =>
      cases hm0 with
      | head => rfl
      | tail _ h0 => exact absurd hp (hx m0 h0)
    | tail _ hmm =>
      cases hm0 with
      | head => exact absurd hp.symm (hx m hmm)
      | tail _ h0 => exact ih hrest hmm h0

theorem lastIdxWhere_lt (q : MovieRec → Bool) :
    ∀ (ms : List MovieRec) (i : Nat),
      lastIdxWhere q ms = some i → i < ms.length := by
  intro ms
  induction ms with
  | nil => intro i h; cases h
  | cons m rest ih =>
    intro i h
    unfold lastIdxWhere at h
    cases hr : lastIdxWhere q rest with
    | some j =>
      rw [hr] at h
      have hj : j + 1 = i := by injection h
      rw [← hj]
      exact Nat.succ_lt_succ (ih j hr)
    | none =>
      rw [hr] at h
      by_cases hq : q m = true
      · rw [if_pos hq] at h
        have h0 : (0 : Nat) = i := by injection h
        rw [← h0]
        exact Nat.succ_pos _
      · rw [if_neg hq] at h
        cases h

theorem lastIdxWhere_sound (q : MovieRec → Bool) :
    ∀ (ms : List MovieRec) (i : Nat),
      lastIdxWhere q ms = some i → q (ms.getD i mdefault) = true := by
  intro ms
  induction ms with
  | nil => intro i h; cases h
  | cons m rest ih =>
    intro i h
    unfold lastIdxWhere at h
    cases hr : lastIdxWhere q rest with
    | some j =>
      rw [hr] at h
      have hj : j + 1 = i := by injection h
      rw [← hj]
      simpa using ih j hr
    | none =>
      rw [hr] at h
      by_cases hq : q m = true
      · rw [if_pos hq] at h
        have h0 : (0 : Nat) = i := by injection h
        rw [← h0]
        simpa using hq
      · rw [if_neg hq] at h
        cases h

theorem lastIdxWhere_isSome (q : MovieRec → Bool) :
    ∀ (ms : List MovieRec) (m : MovieRec), m ∈ ms → q m = true →
      (lastIdxWhere q ms).isSome = true := by
  intro ms
  induction ms with
  | nil => intro m hm; cases hm
  | cons x rest ih =>
    intro m hm hq
    unfold lastIdxWhere
    cases hr : lastIdxWhere q rest with
    | some j => rfl
    | none =>
      cases hm with
      | head => rw [if_pos hq]; rfl
      | tail _ hmm =>
        have := ih m hmm hq
        rw [hr] at this
        cases this

theorem getD_set_self : ∀ (ms : List MovieRec) (i : Nat) (v d : MovieRec),
    i < ms.length → (ms.set i v).getD i d = v := by
  intro ms
  induction ms with
  | nil => intro i v d h; exact absurd h (Nat.not_lt_zero i)
  | cons m rest ih =>
    intro i v d h
    cases i with
    | zero => rfl
    | succ i' =>
      simpa using ih i' v d (Nat.lt_of_succ_lt_succ h)

theorem getD_set_ne : ∀ (ms : List MovieRec) (i j : Nat) (v d : MovieRec),
    i ≠ j → (ms.set i v).getD j d = ms.getD j d := by
  intro ms
  induction ms with
  | nil => intro i j v d h; rfl
  | cons m rest ih =>
    intro i j v d h
    cases i with
    | zero =>
      cases j with
      | zero => exact absurd rfl h
      | succ j' => rfl
    | succ i' =>
      cases j with
      | zero => rfl
      | succ j' =>
        simpa using ih i' j' v d (fun he => h (by rw [he]))

theorem getD_mem : ∀ (ms : List MovieRec) (i : Nat) (d : MovieRec),
    i < ms.length → ms.getD i d ∈ ms := by
  intro ms
  induction ms with
  | nil => intro i d h; exact absurd h (Nat.not_lt_zero i)
  | cons m rest ih =>
    intro i d h
    cases i with
    | zero => exact List.mem_cons_self _ _
    | succ i' =>
      simpa using List.mem_cons_of_mem m (ih i' d (Nat.lt_of_succ_lt_succ h))

theorem takeWhile_all_eq (p : Char → Bool) :
    ∀ l : List Char, l.all p = true → l.takeWhile p = l := by
  intro l
  induction l with
  | nil => intro _; rfl
  | cons a rest ih =>
    intro hall
    rw [List.all_cons] at hall
    obtain ⟨ha, hrest⟩ := (Bool.and_eq_true _ _).mp hall
    simp [List.takeWhile, ha, ih hrest]

theorem takeWhile_append_exact (p : Char → Bool) :
    ∀ (l1 : List Char) (x : Char) (l2 : List Char),
      l1.all p = true → p x = false →
      (l1 ++ x :: l2).takeWhile p = l1 := by
  intro l1
  induction l1 with
  | nil =>
    intro x l2 _ hx
    simp [List.takeWhile, hx]
  | cons a rest ih =>
    intro x l2 hall hx
    rw [List.all_cons] at hall
    obtain ⟨ha, hrest⟩ := (Bool.and_eq_true _ _).mp hall
    simp [List.takeWhile, ha, ih x l2 hrest hx]

theorem strMk_data (s : String) : String.mk s.data = s := by
  cases s
  rfl

theorem basenameCh_mkPath (root f : String)
    (h : ('/' : Char) ∉ f.data) :
    basenameCh (mkPath root f).data = f.data := by
  have hdata : (mkPath root f).data = (root.data ++ ['/']) ++ f.data := by
    show (root ++ "/" ++ f).data = (root.data ++ ['/']) ++ f.data
    rw [String.data_append, String.data_append]
  unfold basenameCh
  rw [hdata, List.reverse_append]
  have hrev : (root.data ++ ['/']).reverse = '/' :: root.data.reverse := by
    rw [List.reverse_append]
    rfl
  rw [hrev]
  rw [takeWhile_append_exact (fun c => c != '/') f.data.reverse '/'
    root.data.reverse ?hall (by decide)]
  · exact List.reverse_reverse _
  case hall =>
    rw [List.all_eq_true]
    intro c hc
    have hcf : c ∈ f.data := List.mem_reverse.mp hc
    have : c ≠ '/' := fun he => h (he ▸ hcf)
    simpa using this

theorem movieStep_skip (pIdx nIdx : String → Option Nat) (st : MWState)
    (rf : String × String) (hk : keepMovieFile rf.2 = false) :
    movieStep pIdx nIdx st rf = st := by
  simp [movieStep, hk]

theorem movieStep_exact (pIdx nIdx : String → Option Nat) (st : MWState)
    (rf : String × String) (i : Nat) (hk : keepMovieFile rf.2 = true)
    (hp : pIdx (mkPath rf.1 rf.2) = some i) :
    movieStep pIdx nIdx st rf =
      { st with refs := st.refs ++ [MovieRef.old i]
                queue := st.queue
                  ++ (if (st.store.getD i mdefault).rating = ""
                      then [QItem.mv (st.store.getD i mdefault)] else []) } := by
  simp [movieStep, hk, hp]

theorem movieStep_name (pIdx nIdx : String → Option Nat) (st : MWState)
    (rf : String × String) (i : Nat) (hk : keepMovieFile rf.2 = true)
    (hp : pIdx (mkPath rf.1 rf.2) = none) (hn : nIdx rf.2 = some i) :
    movieStep pIdx nIdx st rf =
      { st with
        store := st.store.set i
          { st.store.getD i mdefault with path := mkPath rf.1 rf.2 }
        refs := st.refs ++ [MovieRef.old i]
        queue := st.queue
          ++ (if ({ st.store.getD i mdefault with
                    path := mkPath rf.1 rf.2 } : MovieRec).rating = ""
              then [QItem.mv { st.store.getD i mdefault with
                               path := mkPath rf.1 rf.2 }] else []) } := by
  simp [movieStep, hk, hp, hn]

theorem movieStep_new (pIdx nIdx : String → Option Nat) (st : MWState)
    (rf : String × String) (hk : keepMovieFile rf.2 = true)
    (hp : pIdx (mkPath rf.1 rf.2) = none) (hn : nIdx rf.2 = none) :
    movieStep pIdx nIdx st rf =
      { st with
        refs := st.refs ++ [MovieRef.new (newMovie st.mid (mkPath rf.1 rf.2))]
        queue := st.queue ++ [QItem.mv (newMovie st.mid (mkPath rf.1 rf.2))]
        mid := st.mid + 1 } := by
  simp [movieStep, hk, hp, hn]

theorem moviePhase_cons (pIdx nIdx : String → Option Nat)
    (rf : String × String) (rest : List (String × String)) (st : MWState) :
    moviePhase pIdx nIdx (rf :: rest) st
      = moviePhase pIdx nIdx rest (movieStep pIdx nIdx st rf) := rfl

theorem movieStep_storeRefsOK (movies0 : List MovieRec) (st : MWState)
    (rf : String × String)
    (h1 : StoreOK movies0 st.store) (h2 : RefsOK movies0 st.refs) :
    StoreOK movies0
        (movieStep (pathIdxOf movies0) (nameIdxOf movies0) st rf).store
    ∧ RefsOK movies0
        (movieStep (pathIdxOf movies0) (nameIdxOf movies0) st rf).refs := by
  by_cases hk : keepMovieFile rf.2 = true
  case neg =>
    rw [movieStep_skip _ _ st rf (Bool.not_eq_true _ ▸ hk)]
    exact ⟨h1, h2⟩
  case pos =>
    cases hp : pathIdxOf movies0 (mkPath rf.1 rf.2) with
    | some i =>
      rw [movieStep_exact _ _ st rf i hk hp]
      refine ⟨h1, ⟨?_, ?_⟩⟩
      · intro j hj
        rcases List.mem_append.mp hj with hin | hone
        · exact h2.oldLt j hin
        · have he : MovieRef.old j = MovieRef.old i := by simpa using hone
          have hji : j = i := by injection he
          rw [hji]
          exact lastIdxWhere_lt _ movies0 i hp
      · intro m hm
        rcases List.mem_append.mp hm with hin | hone
        · exact h2.newMiss m hin
        · exfalso
          have he : MovieRef.new m = MovieRef.old i := by simpa using hone
          cases he
    | none =>
      cases hn : nameIdxOf movies0 rf.2 with
      | some i =>
        rw [movieStep_name _ _ st rf i hk hp hn]
        have hilt : i < movies0.length := lastIdxWhere_lt _ movies0 i hn
        have hislt : i < st.store.length := by rw [h1.len]; exact hilt
        refine ⟨⟨?_, ?_⟩, ⟨?_, ?_⟩⟩
        · simpa using h1.len
        · intro j hj
          by_cases hij : i = j
          · subst hij
            rw [getD_set_self st.store i _ mdefault hislt]
            exact ⟨(h1.idp i hj).1, Or.inr hp⟩
          · rw [getD_set_ne st.store i j _ mdefault hij]
            exact h1.idp j hj
        · intro j hj
          rcases List.mem_append.mp hj with hin | hone
          · exact h2.oldLt j hin
          · have he : MovieRef.old j = MovieRef.old i := by simpa using hone
            have hji : j = i := by injection he
            rw [hji]
            exact hilt
        · intro m hm
          rcases List.mem_append.mp hm with hin | hone
          · exact h2.newMiss m hin
          · exfalso
            have he : MovieRef.new m = MovieRef.old i := by simpa using hone
            cases he
      | none =>
        rw [movieStep_new _ _ st rf hk hp hn]
        refine ⟨h1, ⟨?_, ?_⟩⟩
        · intro j hj
          rcases List.mem_append.mp hj with hin | hone
          · exact h2.oldLt j hin
          · exfalso
            have he : MovieRef.old j
                = MovieRef.new (newMovie st.mid (mkPath rf.1 rf.2)) := by
              simpa using hone
            cases he
        · intro m hm
          rcases List.mem_append.mp hm with hin | hone
          · exact h2.newMiss m hin
          · have he : MovieRef.new m
                = MovieRef.new (newMovie st.mid (mkPath rf.1 rf.2)) := by
              simpa using hone
            have hme : m = newMovie st.mid (mkPath rf.1 rf.2) := by injection he
            rw [hme]
            exact hp

theorem moviePhase_storeRefsOK (movies0 : List MovieRec) :
    ∀ (files : List (String × String)) (st : MWState),
      StoreOK movies0 st.store → RefsOK movies0 st.refs →
      StoreOK movies0
          (moviePhase (pathIdxOf movies0) (nameIdxOf movies0) files st).store
      ∧ RefsOK movies0
          (moviePhase (pathIdxOf movies0) (nameIdxOf movies0) files st).refs := by
  intro files
  induction files with
  | nil => intro st h1 h2; exact ⟨h1, h2⟩
  | cons rf rest ih =>
    intro st h1 h2
    obtain ⟨h1', h2'⟩ := movieStep_storeRefsOK movies0 st rf h1 h2
    exact ih _ h1' h2'

theorem movieStep_queue (pIdx nIdx : String → Option Nat) (st : MWState)
    (rf : String × String) :
    ∀ q ∈ (movieStep pIdx nIdx st rf).queue,
      q ∈ st.queue ∨ q.rating = "" := by
  intro q hq
  by_cases hk : keepMovieFile rf.2 = true
  case neg =>
    rw [movieStep_skip pIdx nIdx st rf (Bool.not_eq_true _ ▸ hk)] at hq
    exact Or.inl hq
  case pos =>
    cases hp : pIdx (mkPath rf.1 rf.2) with
    | some i =>
      rw [movieStep_exact pIdx nIdx st rf i hk hp] at hq
      rcases List.mem_append.mp hq with hin | hone
      · exact Or.inl hin
      · right
        by_cases hr : (st.store.getD i mdefault).rating = ""
        · rw [if_pos hr] at hone
          have he : q = QItem.mv (st.store.getD i mdefault) := by
            simpa using hone
          rw [he]
          exact hr
        · rw [if_neg hr] at hone
          cases hone
    | none =>
      cases hn : nIdx rf.2 with
      | some i =>
        rw [movieStep_name pIdx nIdx st rf i hk hp hn] at hq
        rcases List.mem_append.mp hq with hin | hone
        · exact Or.inl hin
        · right
          by_cases hr : ({ st.store.getD i mdefault with
              path := mkPath rf.1 rf.2 } : MovieRec).rating = ""
          · rw [if_pos hr] at hone
            have he : q = QItem.mv { st.store.getD i mdefault with
                path := mkPath rf.1 rf.2 } := by
              simpa using hone
            rw [he]
            exact hr
          · rw [if_neg hr] at hone
            cases hone
      | none =>
        rw [movieStep_new pIdx nIdx st rf hk hp hn] at hq
        rcases List.mem_append.mp hq with hin | hone
        · exact Or.inl hin
        · right
          have he : q = QItem.mv (newMovie st.mid (mkPath rf.1 rf.2)) := by
            simpa using hone
          rw [he]
          rfl

theorem moviePhase_queue (pIdx nIdx : String → Option Nat) :
    ∀ (files : List (String × String)) (st : MWState) (q : QItem),
      q ∈ (moviePhase pIdx nIdx files st).queue →
      q ∈ st.queue ∨ q.rating = "" := by
  intro files
  induction files with
  | nil => intro st q hq; exact Or.inl hq
  | cons rf rest ih =>
    intro st q hq
    rcases ih (movieStep pIdx nIdx st rf) q hq with hin | hr
    · exact movieStep_queue pIdx nIdx st rf q hin
    · exact Or.inr hr

theorem resolveMovies_append (store : List MovieRec) (refs : List MovieRef)
    (r : MovieRef) :
    resolveMovies store (refs ++ [r])
      = resolveMovies store refs ++ [resolveRef store r] := by
  simp [resolveMovies]

theorem resolveMovies_set_of_ne (store : List MovieRec)
    (refs : List MovieRef) (i : Nat) (v : MovieRec)
    (h : ∀ j, MovieRef.old j ∈ refs → j ≠ i) :
    resolveMovies (store.set i v) refs = resolveMovies store refs := by
  unfold resolveMovies
  apply List.map_congr_left
  intro r hr
  cases r with
  | new m => rfl
  | old j =>
    show (store.set i v).getD j mdefault = store.getD j mdefault
    exact getD_set_ne store i j v mdefault (Ne.symm (h j hr))

theorem noTouch_tail (movies0 : List MovieRec) (rf : String × String)
    (rest : List (String × String)) (i : Nat)
    (h : noTouch movies0 (rf :: rest) i) : noTouch movies0 rest i :=
  fun rf' h' hk => h rf' (List.mem_cons_of_mem rf h') hk

theorem walkInv_tail (movies0 : List MovieRec) (rf : String × String)
    (rest : List (String × String)) (st : MWState)
    (h : WalkInv movies0 (rf :: rest) st) : WalkInv movies0 rest st := by
  refine ⟨h.len, ?_, ?_⟩
  · intro i hi
    rcases h.origOr i hi with he | hnt
    · exact Or.inl he
    · exact Or.inr (noTouch_tail movies0 rf rest i hnt)
  · intro i hi
    obtain ⟨hlt, hnt⟩ := h.refsOk i hi
    exact ⟨hlt, noTouch_tail movies0 rf rest i hnt⟩

theorem moviePhase_paths_aux (movies0 : List MovieRec) :
    ∀ (files : List (String × String)) (st : MWState),
      (∀ rf ∈ files, keepMovieFile rf.2 = true →
        ('/' : Char) ∉ rf.2.data) →
      (files.filter (fun rf => keepMovieFile rf.2)).Pairwise
        (fun a b => a.2 ≠ b.2) →
      WalkInv movies0 files st →
      (resolveMovies
          (moviePhase (pathIdxOf movies0) (nameIdxOf movies0) files st).store
          (moviePhase (pathIdxOf movies0) (nameIdxOf movies0) files
            st).refs).map MovieRec.path
        = (resolveMovies st.store st.refs).map MovieRec.path
          ++ (files.filter (fun rf => keepMovieFile rf.2)).map
              (fun rf => mkPath rf.1 rf.2) := by
  intro files
  induction files with
  | nil =>
    intro st _ _ _
    simp [moviePhase]
  | cons rf rest ih =>
    intro st hns hdist hinv
    rw [moviePhase_cons]
    by_cases hk : keepMovieFile rf.2 = true
    case neg =>
      have hk' : keepMovieFile rf.2 = false := Bool.not_eq_true _ ▸ hk
      have hfilter : (rf :: rest).filter (fun x => keepMovieFile x.2)
          = rest.filter (fun x => keepMovieFile x.2) := by
        simp [List.filter_cons, hk']
      rw [movieStep_skip _ _ st rf hk', hfilter]
      rw [hfilter] at hdist
      exact ih st (fun rf' h' => hns rf' (List.mem_cons_of_mem rf h'))
        hdist (walkInv_tail movies0 rf rest st hinv)
    case pos =>
      have hnsrf : ('/' : Char) ∉ rf.2.data :=
        hns rf (List.mem_cons_self _ _) hk
      have hfilter : (rf :: rest).filter (fun x => keepMovieFile x.2)
          = rf :: rest.filter (fun x => keepMovieFile x.2) := by
        simp [List.filter_cons, hk]
      rw [hfilter] at hdist
      obtain ⟨hhead, htail⟩ := List.pairwise_cons.mp hdist
      have hnsrest : ∀ rf' ∈ rest, keepMovieFile rf'.2 = true →
          ('/' : Char) ∉ rf'.2.data :=
        fun rf' h' => hns rf' (List.mem_cons_of_mem rf h')
      have hprotect : ∀ i, basenameOrig movies0 i = rf.2 →
          noTouch movies0 rest i := by
        intro i hb rf' h' hk'
        have hmemf : rf' ∈ rest.filter (fun x => keepMovieFile x.2) :=
          List.mem_filter.mpr ⟨h', hk'⟩
        rw [hb]
        exact Ne.symm (hhead rf' hmemf)
      rw [hfilter]
      cases hp : pathIdxOf movies0 (mkPath rf.1 rf.2) with
      | some i =>
        have hilt : i < movies0.length := lastIdxWhere_lt _ movies0 i hp
        have horig : (movies0.getD i mdefault).path = mkPath rf.1 rf.2 := by
          have := lastIdxWhere_sound _ movies0 i hp
          simpa using this
        have hbn : basenameOrig movies0 i = rf.2 := by
          unfold basenameOrig
          rw [horig, basenameCh_mkPath rf.1 rf.2 hnsrf, strMk_data]
        have hstore_i : st.store.getD i mdefault
            = movies0.getD i mdefault := by
          rcases hinv.origOr i hilt with he | hnt
          · exact he
          · exact absurd hbn.symm (hnt rf (List.mem_cons_self _ _) hk)
        rw [movieStep_exact _ _ st rf i hk hp]
        have hinv1 : WalkInv movies0 rest
            { st with refs := st.refs ++ [MovieRef.old i]
                      queue := st.queue
                        ++ (if (st.store.getD i mdefault).rating = ""
                            then [QItem.mv (st.store.getD i mdefault)]
                            else []) } := by
          refine ⟨hinv.len, ?_, ?_⟩
          · intro i' hi'
            rcases hinv.origOr i' hi' with he | hnt
            · exact Or.inl he
            · exact Or.inr (noTouch_tail movies0 rf rest i' hnt)
          · intro j hj
            rcases List.mem_append.mp hj with hin | hone
            · obtain ⟨hlt', hnt⟩ := hinv.refsOk j hin
              exact ⟨hlt', noTouch_tail movies0 rf rest j hnt⟩
            · have he : MovieRef.old j = MovieRef.old i := by
                simpa using hone
              have hji : j = i := by injection he
              subst hji
              exact ⟨hilt, hprotect j hbn⟩
        rw [ih _ hnsrest htail hinv1]
        rw [resolveMovies_append]
        have hres : resolveRef st.store (MovieRef.old i)
            = movies0.getD i mdefault := hstore_i
        have horig' : (movies0[i]?.getD mdefault).path = mkPath rf.1 rf.2 := by
          simpa using horig
        simp [hres, horig']
      | none =>
        cases hn : nameIdxOf movies0 rf.2 with
        | some i =>
          have hilt : i < movies0.length := lastIdxWhere_lt _ movies0 i hn
          have hbn : basenameOrig movies0 i = rf.2 := by
            have := lastIdxWhere_sound _ movies0 i hn
            unfold basenameOrig
            simpa using this
          have hstore_i : st.store.getD i mdefault
              = movies0.getD i mdefault := by
            rcases hinv.origOr i hilt with he | hnt
            · exact he
            · exact absurd hbn.symm (hnt rf (List.mem_cons_self _ _) hk)
          have hislt : i < st.store.length := by
            rw [hinv.len]
            exact hilt
          have hnothers : ∀ j, MovieRef.old j ∈ st.refs → j ≠ i := by
            intro j hj he
            obtain ⟨_, hnt⟩ := hinv.refsOk j hj
            subst he
            exact (hnt rf (List.mem_cons_self _ _) hk) hbn.symm
          rw [movieStep_name _ _ st rf i hk hp hn]
          have hinv1 : WalkInv movies0 rest
              { st with
                store := st.store.set i
                  { st.store.getD i mdefault with path := mkPath rf.1 rf.2 }
                refs := st.refs ++ [MovieRef.old i]
                queue := st.queue
                  ++ (if ({ st.store.getD i mdefault with
                            path := mkPath rf.1 rf.2 } : MovieRec).rating = ""
                      then [QItem.mv { st.store.getD i mdefault with
                                       path := mkPath rf.1 rf.2 }]
                      else []) } := by
            refine ⟨?_, ?_, ?_⟩
            · simpa using hinv.len
            · intro i' hi'
              by_cases hii : i = i'
              · subst hii
                exact Or.inr (hprotect i hbn)
              · show (st.store.set i _).getD i' mdefault
                    = movies0.getD i' mdefault ∨ _
                rw [getD_set_ne st.store i i' _ mdefault hii]
                rcases hinv.origOr i' hi' with he | hnt
                · exact Or.inl he
                · exact Or.inr (noTouch_tail movies0 rf rest i' hnt)
            · intro j hj
              rcases List.mem_append.mp hj with hin | hone
              · obtain ⟨hlt', hnt⟩ := hinv.refsOk j hin
                exact ⟨hlt', noTouch_tail movies0 rf rest j hnt⟩
              · have he : MovieRef.old j = MovieRef.old i := by
                  simpa using hone
                have hji : j = i := by injection he
                subst hji
                exact ⟨hilt, hprotect j hbn⟩
          rw [ih _ hnsrest htail hinv1]
          rw [resolveMovies_append]
          rw [resolveMovies_set_of_ne st.store st.refs i _ hnothers]
          have hres : resolveRef
              (st.store.set i
                { st.store.getD i mdefault with path := mkPath rf.1 rf.2 })
              (MovieRef.old i)
              = { st.store.getD i mdefault with path := mkPath rf.1 rf.2 } := by
            show (st.store.set i _).getD i mdefault = _
            exact getD_set_self st.store i _ mdefault hislt
          rw [hres]
          simp
        | none =>
          rw [movieStep_new _ _ st rf hk hp hn]
          have hinv1 : WalkInv movies0 rest
              { st with
                refs := st.refs
                  ++ [MovieRef.new (newMovie st.mid (mkPath rf.1 rf.2))]
                queue := st.queue
                  ++ [QItem.mv (newMovie st.mid (mkPath rf.1 rf.2))]
                mid := st.mid + 1 } := by
            refine ⟨hinv.len, ?_, ?_⟩
            · intro i' hi'
              rcases hinv.origOr i' hi' with he | hnt
              · exact Or.inl he
              · exact Or.inr (noTouch_tail movies0 rf rest i' hnt)
            · intro j hj
              rcases List.mem_append.mp hj with hin | hone
              · obtain ⟨hlt', hnt⟩ := hinv.refsOk j hin
                exact ⟨hlt', noTouch_tail movies0 rf rest j hnt⟩
              · exfalso
                have he : MovieRef.old j
                    = MovieRef.new (newMovie st.mid (mkPath rf.1 rf.2)) := by
                  simpa using hone
                cases he
          rw [ih _ hnsrest htail hinv1]
          rw [resolveMovies_append]
          simp [resolveRef, newMovie]

theorem finalSeriesPhase_queue_unrated
    (oldSeries : List (String × SeriesEntry)) :
    ∀ (groups : List (String × List (Nat × List Ep))) (q : QItem),
      q ∈ (finalSeriesPhase oldSeries groups).2 → q.rating = "" := by
  intro groups
  induction groups with
  | nil =>
    intro q hq
    cases hq
  | cons g rest ih =>
    rcases g with ⟨name, seasons⟩
    intro q hq
    unfold finalSeriesPhase at hq
    cases hm : (lookupAssoc oldSeries name).bind (fun e => e.meta) with
    | some meta =>
      rw [hm] at hq
      rcases List.mem_append.mp hq with h1 | h2
      · by_cases hr : meta.rating = ""
        · rw [if_pos hr] at h1
          cases h1 with
          | head => exact hr
          | tail _ hx => cases hx
        · rw [if_neg hr] at h1
          cases h1
      · exact ih q h2
    | none =>
      rw [hm] at hq
      cases hq with
      | head => rfl
      | tail _ hx => exact ih q hx

theorem lookupAssoc_append {α : Type} (a b : List (String × α)) (k : String) :
    lookupAssoc (a ++ b) k = orOpt (lookupAssoc a k) (lookupAssoc b k) := by
  induction a with
  | nil => rfl
  | cons kv rest ih =>
    rcases kv with ⟨k0, v0⟩
    by_cases hk : k0 = k
    · simp [lookupAssoc, hk, orOpt]
    · simp [lookupAssoc, hk, ih, orOpt]

theorem lookupAssoc_mapReplace {α : Type} (old new : List (String × α))
    (k : String) :
    lookupAssoc (old.map (fun kv =>
        match lookupAssoc new kv.1 with
        | some v => (kv.1, v)
        | none => kv)) k
      = (lookupAssoc old k).map (fun v => (lookupAssoc new k).getD v) := by
  induction old with
  | nil => rfl
  | cons kv rest ih =>
    rcases kv with ⟨k0, v0⟩
    by_cases hk : k0 = k
    · subst hk
      cases hn : lookupAssoc new k0 with
      | some v => simp [lookupAssoc, hn]
      | none => simp [lookupAssoc, hn]
    · cases hn : lookupAssoc new k0 with
      | some v => simp [lookupAssoc, hn, hk, ih]
      | none => simp [lookupAssoc, hn, hk, ih]

theorem lookupAssoc_filter_keep {α : Type} (old new : List (String × α))
    (k : String) (hk : containsKey old k = false) :
    lookupAssoc (new.filter (fun kv => !(containsKey old kv.1))) k
      = lookupAssoc new k := by
  induction new with
  | nil => rfl
  | cons kv rest ih =>
    rcases kv with ⟨k0, v0⟩
    by_cases he : k0 = k
    · subst he
      simp [List.filter_cons, hk, lookupAssoc]
    · cases hc : containsKey old k0 with
      | true => simp [List.filter_cons, hc, lookupAssoc, he, ih]
      | false => simp [List.filter_cons, hc, lookupAssoc, he, ih]

theorem lookupAssoc_filter_drop {α : Type} (old new : List (String × α))
    (k : String) (hk : containsKey old k = true) :
    lookupAssoc (new.filter (fun kv => !(containsKey old kv.1))) k
      = none := by
  induction new with
  | nil => rfl
  | cons kv rest ih =>
    rcases kv with ⟨k0, v0⟩
    by_cases he : k0 = k
    · subst he
      simp [List.filter_cons, hk, ih]
    · cases hc : containsKey old k0 with
      | true => simp [List.filter_cons, hc, ih]
      | false => simp [List.filter_cons, hc, lookupAssoc, he, ih]

theorem dictUpdate_lookup {α : Type} (old new : List (String × α))
    (k : String) :
    lookupAssoc (dictUpdate old new) k
      = orOpt (lookupAssoc new k) (lookupAssoc old k) := by
  unfold dictUpdate
  rw [lookupAssoc_append, lookupAssoc_mapReplace]
  cases ho : lookupAssoc old k with
  | some v =>
    have hc : containsKey old k = true := by simp [containsKey, ho]
    rw [lookupAssoc_filter_drop old new k hc]
    cases hn : lookupAssoc new k with
    | some v' => simp [orOpt]
    | none => simp [orOpt]
  | none =>
    have hc : containsKey old k = false := by simp [containsKey, ho]
    rw [lookupAssoc_filter_keep old new k hc]
    cases hn : lookupAssoc new k with
    | some v' => simp [orOpt]
    | none => simp [orOpt]

theorem yearHere_shape : ∀ (l y : List Char),
    yearHere l = some y → y = (l.drop 1).take 4 := by
  intro l y h
  rcases l with _ | ⟨c1, l⟩
  · cases h
  rcases l with _ | ⟨d1, l⟩
  · cases h
  rcases l with _ | ⟨d2, l⟩
  · cases h
  rcases l with _ | ⟨d3, l⟩
  · cases h
  rcases l with _ | ⟨d4, l⟩
  · cases h
  rcases l with _ | ⟨c2, l⟩
  · cases h
  have h' : (if (openerCh c1 && yearDigits d1 d2 d3 d4 && closerCh c2) = true
      then some [d1, d2, d3, d4] else none) = some y := h
  by_cases hp : (openerCh c1 && yearDigits d1 d2 d3 d4 && closerCh c2) = true
  · rw [if_pos hp] at h'
    have : [d1, d2, d3, d4] = y := by injection h'
    rw [← this]
    rfl
  · rw [if_neg hp] at h'
    cases h'

theorem yearSearch_sound : ∀ (cs : List Char) (i : Nat) (y : List Char),
    yearSearch cs = some (i, y) → yearHere (cs.drop i) = some y := by
  intro cs
  induction cs with
  | nil => intro i y h; cases h
  | cons c rest ih =>
    intro i y h
    unfold yearSearch at h
    cases hh : yearHere (c :: rest) with
    | some y0 =>
      rw [hh] at h
      have hp : (0, y0) = (i, y) := by injection h
      have hi : (0 : Nat) = i := congrArg Prod.fst hp
      have hy : y0 = y := congrArg Prod.snd hp
      rw [← hi, ← hy]
      simpa using hh
    | none =>
      rw [hh] at h
      cases hr : yearSearch rest with
      | some p =>
        rcases p with ⟨j, y0⟩
        rw [hr] at h
        have hp : (j + 1, y0) = (i, y) := by injection h
        have hi : j + 1 = i := congrArg Prod.fst hp
        have hy : y0 = y := congrArg Prod.snd hp
        rw [← hi, ← hy]
        simpa [List.drop_succ_cons] using ih j y0 hr
      | none =>
        rw [hr] at h
        cases h

theorem yearSearch_complete : ∀ (cs : List Char) (i : Nat),
    (yearHere (cs.drop i)).isSome = true →
    ∃ j y, j ≤ i ∧ yearSearch cs = some (j, y) := by
  intro cs
  induction cs with
  | nil =>
    intro i h
    rw [List.drop_nil] at h
    cases h
  | cons c rest ih =>
    intro i h
    cases hh : yearHere (c :: rest) with
    | some y0 => exact ⟨0, y0, Nat.zero_le i, by simp [yearSearch, hh]⟩
    | none =>
      cases i with
      | zero =>
        rw [List.drop_zero, hh] at h
        cases h
      | succ i' =>
        rw [List.drop_succ_cons] at h
        obtain ⟨j, y, hji, hs⟩ := ih i' h
        exact ⟨j + 1, y, Nat.succ_le_succ hji, by simp [yearSearch, hh, hs]⟩

theorem digitRunSearch_sound (p : Char → Bool) : ∀ (cs : List Char) (v : Nat),
    digitRunSearch p cs = some v →
    ∃ j, occAt p cs j = true
      ∧ v = natOfDigits ((cs.drop (j + 1)).takeWhile digitCh) := by
  intro cs
  induction cs with
  | nil => intro v h; cases h
  | cons c rest ih =>
    intro v h
    unfold digitRunSearch at h
    by_cases hc : (p c && firstDigit rest) = true
    · rw [if_pos hc] at h
      have hv : natOfDigits (rest.takeWhile digitCh) = v := by injection h
      refine ⟨0, ?_, ?_⟩
      · rcases rest with _ | ⟨d, r2⟩
        · simp [firstDigit] at hc
        · simpa [occAt, firstDigit] using hc
      · rw [← hv]
        rfl
    · rw [if_neg hc] at h
      obtain ⟨j, hocc, hval⟩ := ih v h
      refine ⟨j + 1, ?_, ?_⟩
      · simpa [occAt, List.drop_succ_cons] using hocc
      · simpa [List.drop_succ_cons] using hval

theorem digitRunSearch_complete (p : Char → Bool) :
    ∀ (cs : List Char) (j : Nat),
      occAt p cs j = true → (digitRunSearch p cs).isSome = true := by
  intro cs
  induction cs with
  | nil =>
    intro j h
    simp [occAt] at h
  | cons c rest ih =>
    intro j h
    unfold digitRunSearch
    by_cases hc : (p c && firstDigit rest) = true
    · rw [if_pos hc]
      rfl
    · rw [if_neg hc]
      cases j with
      | zero =>
        exfalso
        rcases rest with _ | ⟨d, r2⟩
        · simp [occAt] at h
        · simp [occAt] at h
          exact hc (by simp [firstDigit, h.1, h.2])
      | succ j' =>
        apply ih j'
        simpa [occAt, List.drop_succ_cons] using h

theorem occAt_lt_length (p : Char → Bool) (cs : List Char) (j : Nat)
    (h : occAt p cs j = true) : j < cs.length := by
  by_contra hlt
  push_neg at hlt
  unfold occAt at h
  rw [List.drop_eq_nil_of_le hlt] at h
  cases h

theorem isEChar_not_digit (c : Char) (h : isEChar c = true) :
    digitCh c = false := by
  have h' : c = 'E' ∨ c = 'e' := by simpa [isEChar] using h
  rcases h' with h' | h' <;> subst h' <;> decide

theorem getNat_ofNat (n : Nat) :
    Json.getNat (Json.jnum (n : Int)) = some n := by
  have h : Json.getNat (Json.jnum (n : Int))
      = if ((n : Int)) < 0 then none else some ((n : Int)).toNat := rfl
  rw [h, if_neg (by omega)]
  simp

theorem optMapList_encode {α β : Type} (g : β → Option α) (enc : α → β)
    (h : ∀ a, g (enc a) = some a) :
    ∀ l : List α, optMapList g (l.map enc) = some l := by
  intro l
  induction l with
  | nil => rfl
  | cons a rest ih => simp [optMapList, h a, ih]

theorem decodeStrList_encode (l : List String) :
    decodeStrList (encodeStrList l) = some l := by
  unfold decodeStrList encodeStrList
  simp only [Json.getArr, Option.bind_some]
  exact optMapList_encode Json.getStr Json.jstr (fun _ => rfl) l

theorem decodeMovie_encode (m : MovieRec) :
    decodeMovie (encodeMovie m) = some m := by
  cases m with
  | mk mid title candidates year path poster rating plot genre =>
    cases genre with
    | none =>
      simp [decodeMovie, encodeMovie, jlookup, Json.getObj, Json.getStr,
        getNat_ofNat, decodeStrList_encode]
    | some g =>
      simp [decodeMovie, encodeMovie, jlookup, Json.getObj, Json.getStr,
        getNat_ofNat, decodeStrList_encode]

theorem decodeEp_encode (e : Ep) : decodeEp (encodeEp e) = some e := by
  cases e with
  | mk eid title season episode path filename =>
    simp [decodeEp, encodeEp, jlookup, Json.getObj, Json.getStr, getNat_ofNat]

theorem decodeMeta_encode (m : SeriesMeta) :
    decodeMeta (encodeMeta m) = some m := by
  cases m with
  | mk sid title candidates year poster rating plot genre =>
    simp [decodeMeta, encodeMeta, jlookup, Json.getObj, Json.getStr,
      decodeStrList_encode]

theorem decodeSeasons_jobj (fields : List (String × Json)) :
    decodeSeasons (Json.jobj fields)
      = optMapList (fun kv => (kv.2.getArr.bind (optMapList decodeEp)).map
          (fun eps => (kv.1, eps))) fields := rfl

theorem decodeSeasons_encode (ss : List (Nat × List Ep)) :
    decodeSeasons (encodeSeasons ss)
      = some (ss.map (fun kv => (toString kv.1, kv.2))) := by
  unfold encodeSeasons
  rw [decodeSeasons_jobj]
  induction ss with
  | nil => rfl
  | cons kv rest ih =>
    rcases kv with ⟨k, eps⟩
    simp only [List.map_cons, optMapList, Json.getArr, Option.some_bind,
      optMapList_encode decodeEp encodeEp decodeEp_encode, Option.map_some]
    simp only [Json.getArr] at ih
    rw [ih]
    rfl

theorem decodeEntry_encode (e : SeriesEntry) :
    decodeEntry (encodeEntry e) = some (toLoadedEntry e) := by
  cases e with
  | mk poster rating plot year genre seasons meta =>
    cases year with
    | none =>
      cases genre with
      | none =>
        cases meta with
        | none =>
          simp [decodeEntry, encodeEntry, jlookup, Json.getObj, Json.getStr,
            decodeSeasons_encode, toLoadedEntry]
        | some m =>
          simp [decodeEntry, encodeEntry, jlookup, Json.getObj, Json.getStr,
            decodeSeasons_encode, decodeMeta_encode, toLoadedEntry]
      | some g =>
        cases meta with
        | none =>
          simp [decodeEntry, encodeEntry, jlookup, Json.getObj, Json.getStr,
            decodeSeasons_encode, toLoadedEntry]
        | some m =>
          simp [decodeEntry, encodeEntry, jlookup, Json.getObj, Json.getStr,
            decodeSeasons_encode, decodeMeta_encode, toLoadedEntry]
    | some y =>
      cases genre with
      | none =>
        cases meta with
        | none =>
          simp [decodeEntry, encodeEntry, jlookup, Json.getObj, Json.getStr,
            decodeSeasons_encode, toLoadedEntry]
        | some m =>
          simp [decodeEntry, encodeEntry, jlookup, Json.getObj, Json.getStr,
            decodeSeasons_encode, decodeMeta_encode, toLoadedEntry]
      | some g =>
        cases meta with
        | none =>
          simp [decodeEntry, encodeEntry, jlookup, Json.getObj, Json.getStr,
            decodeSeasons_encode, toLoadedEntry]
        | some m =>
          simp [decodeEntry, encodeEntry, jlookup, Json.getObj, Json.getStr,
            decodeSeasons_encode, decodeMeta_encode, toLoadedEntry]

theorem optMapList_entries (l : List (String × SeriesEntry)) :
    optMapList (fun kv => (decodeEntry kv.2).map (fun e => (kv.1, e)))
      (l.map (fun kv => (kv.1, encodeEntry kv.2)))
      = some (l.map (fun kv => (kv.1, toLoadedEntry kv.2))) := by
  induction l with
  | nil => rfl
  | cons kv rest ih => simp [optMapList, decodeEntry_encode, ih]

theorem load_save (cat : Catalog) :
    load_cache (save_cache cat) = some (toLoaded cat) := by
  unfold load_cache save_cache
  simp [jlookup, Json.getObj, Json.getArr,
    optMapList_encode decodeMovie encodeMovie decodeMovie_encode,
    optMapList_entries, toLoaded]

/-! ## Claim theorems -/

/-- C1 (code bug): `_validate_path` is a raw `str.startswith` check, so a
catalog path in the sibling directory `/media/movies_evil` — not a strict
descendant of either configured root — passes validation, and `play` streams
the file with 206 instead of responding 403 Forbidden. -/
theorem play_serves_path_outside_roots :
    validate_path "/home/user" ⟨"/media/movies", ""⟩
        "/media/movies_evil/secret.mkv" = true
    ∧ spec_strict_descendant "/media/movies" "/media/movies_evil/secret.mkv"
        = false
    ∧ spec_strict_descendant "" "/media/movies_evil/secret.mkv" = false
    ∧ play "/home/user" ⟨"/media/movies", ""⟩
        [⟨7, "Secret", ["Secret"], "", "/media/movies_evil/secret.mkv",
          "/static/placeholder.png", "", "", none⟩] [] 7
        (fun _ => true) (fun _ => some 1000) none
        = PlayResp.stream 206 0 1000 1000
    ∧ servedBytes 1000 0 1000 = 1000 := by
  refine ⟨by decide, by decide, by decide, by decide, by decide⟩

/-- C4 (counterexample): a `play` request with no `Range` header is answered
with status 206, not 200 — the byte-range branch always builds
`Response(generate(), 206, ...)`. -/
theorem play_without_range_returns_206 :
    play "/home/user" ⟨"/m", ""⟩
        [⟨1, "A", ["A"], "", "/m/a.mkv", "", "", "", none⟩] [] 1
        (fun _ => true) (fun _ => some 1000) none
        = PlayResp.stream 206 0 1000 1000
    ∧ (206 : Nat) ≠ 200 := by
  exact ⟨by decide, by decide⟩

/-- C4 (amended): with the `Range` header absent, `play` does stream the
whole file — all `size` bytes from offset 0 — but with HTTP status 206, the
status the byte-range branch uses unconditionally. -/
theorem play_without_range_streams_whole_file
    (cwd : String) (cfg : PlayCfg) (movies : List MovieRec)
    (series : List (String × SeriesEntry)) (vid : Nat)
    (fsExists : String → Bool) (fsSize : String → Option Nat)
    (p : String) (size : Nat)
    (hfind : findTarget movies series vid = some p)
    (hvalid : validate_path cwd cfg p = true)
    (hex : fsExists p = true)
    (htr : extOf p ∉ transcodeExts)
    (hsize : fsSize p = some size) :
    play cwd cfg movies series vid fsExists fsSize none
      = PlayResp.stream 206 0 (size : Int) size
    ∧ servedBytes size 0 (size : Int) = size := by
  constructor
  · unfold play
    rw [hfind]
    simp [hvalid, hex, htr, hsize]
  · simp [servedBytes]

/-- Witness for `play_without_range_streams_whole_file` at a concrete
catalog. -/
theorem play_without_range_streams_whole_file_witness :
    play "/home/user" ⟨"/m2", ""⟩
        [⟨2, "B", ["B"], "", "/m2/b.mkv", "", "", "", none⟩] [] 2
        (fun _ => true) (fun _ => some 500) none
      = PlayResp.stream 206 0 (500 : Int) 500
    ∧ servedBytes 500 0 (500 : Int) = 500 :=
  play_without_range_streams_whole_file "/home/user" ⟨"/m2", ""⟩
    [⟨2, "B", ["B"], "", "/m2/b.mkv", "", "", "", none⟩] [] 2
    (fun _ => true) (fun _ => some 500) "/m2/b.mkv" 500
    (by decide) (by decide) (by decide) (by decide) (by decide)

/-- C5 (counterexample): the `/api/data` route mutates catalog state — on a
series entry whose summary fields differ from its `meta`, serving the route
changes `series_data`. -/
theorem api_data_rewrites_series_summary :
    get_data_series
        [("X", ⟨"/static/placeholder.png", "", "", none, none, [],
          some ⟨"X", "X", ["X"], "", "/get_poster/X", "8.1", "p", "Drama"⟩⟩)]
      ≠ [("X", ⟨"/static/placeholder.png", "", "", none, none, [],
          some ⟨"X", "X", ["X"], "", "/get_poster/X", "8.1", "p", "Drama"⟩⟩)] := by
  decide

/-- C5 (amended): the `/api/data` route's write is exactly the idempotent
sync of series summary fields from `meta` — it never touches `seasons` or
`meta` itself, and applying it twice equals applying it once; the other
HTTP routes (`play`, poster, subtitle) compute responses without writing
catalog state. -/
theorem api_data_sync_idempotent :
    (∀ ss : List (String × SeriesEntry),
        get_data_series (get_data_series ss) = get_data_series ss)
    ∧ (∀ e : SeriesEntry,
        (get_data_sync e).seasons = e.seasons
        ∧ (get_data_sync e).meta = e.meta) := by
  constructor
  · exact get_data_series_map
  · intro e
    cases e with
    | mk poster rating plot year genre seasons meta =>
      cases meta <;> exact ⟨rfl, rfl⟩

/-- C7: whenever the extension-stripped filename has a bounded year token
(the condition of the source's year regex) at some index `i`, the parse
returns the year digits of the leftmost such token and builds the title
candidates from the characters strictly before that token only — so the year
token and everything after it are excluded; when the token is unique, the
returned year is exactly its digits.  Concretely,
`Inception.2010.1080p.BluRay.x264.mkv` parses to `(["Inception"], "2010")`. -/
theorem year_token_extraction :
    (∀ (path : String) (i : Nat),
        boundedYearAt (stemChars path) i = true →
        ∃ j, j ≤ i ∧ boundedYearAt (stemChars path) j = true
          ∧ (get_smart_title path).2
            = String.mk (yearStrAt (stemChars path) j)
          ∧ (get_smart_title path).1
            = candidateList (cleanedFrom ((stemChars path).take j))
          ∧ ((∀ k, boundedYearAt (stemChars path) k = true → k = i) → j = i))
    ∧ get_smart_title "Inception.2010.1080p.BluRay.x264.mkv"
      = (["Inception"], "2010") := by
  constructor
  · intro path i h
    unfold boundedYearAt at h
    obtain ⟨j, y, hji, hs⟩ := yearSearch_complete (stemChars path) i h
    have hsound := yearSearch_sound (stemChars path) j y hs
    have hshape := yearHere_shape _ y hsound
    refine ⟨j, hji, ?_, ?_, ?_, ?_⟩
    · unfold boundedYearAt
      rw [hsound]
      rfl
    · simp [get_smart_title, hs, hshape, yearStrAt]
    · simp [get_smart_title, cleanedOf, hs]
    · intro huniq
      exact huniq j (by unfold boundedYearAt; rw [hsound]; rfl)
  · decide

/-- Witness for `year_token_extraction` at the bounded year token of
`Inception.2010.1080p.BluRay.x264.mkv` (index 9). -/
theorem year_token_extraction_witness :
    ∃ j, j ≤ 9
      ∧ boundedYearAt (stemChars "Inception.2010.1080p.BluRay.x264.mkv") j
        = true
      ∧ (get_smart_title "Inception.2010.1080p.BluRay.x264.mkv").2
        = String.mk (yearStrAt
            (stemChars "Inception.2010.1080p.BluRay.x264.mkv") j)
      ∧ (get_smart_title "Inception.2010.1080p.BluRay.x264.mkv").1
        = candidateList (cleanedFrom
            ((stemChars "Inception.2010.1080p.BluRay.x264.mkv").take j))
      ∧ ((∀ k, boundedYearAt
            (stemChars "Inception.2010.1080p.BluRay.x264.mkv") k = true →
            k = 9) → j = 9) :=
  year_token_extraction.1 "Inception.2010.1080p.BluRay.x264.mkv" 9 (by decide)

/-- C2 (counterexample): re-scanning an *unchanged* series tree does not keep
episode ids — each scan rebuilds every episode with a fresh id from the
global counter, so the episode at the unchanged path `TV/Show.S01E01.mkv`
has id 1 after the first scan and id 2 after the identical rescan. -/
theorem rescan_changes_unchanged_episode_id :
    (episodesOf ⟨(scan_videos ⟨[], [("TV", "Show.S01E01.mkv")]⟩ [] [] 1 1).movies,
        (scan_videos ⟨[], [("TV", "Show.S01E01.mkv")]⟩ [] [] 1 1).series⟩).map Ep.id
      = [1]
    ∧ (episodesOf ⟨(scan_videos ⟨[], [("TV", "Show.S01E01.mkv")]⟩
          (scan_videos ⟨[], [("TV", "Show.S01E01.mkv")]⟩ [] [] 1 1).movies
          (scan_videos ⟨[], [("TV", "Show.S01E01.mkv")]⟩ [] [] 1 1).series
          (scan_videos ⟨[], [("TV", "Show.S01E01.mkv")]⟩ [] [] 1 1).mid
          (scan_videos ⟨[], [("TV", "Show.S01E01.mkv")]⟩ [] [] 1 1).sid).movies,
        (scan_videos ⟨[], [("TV", "Show.S01E01.mkv")]⟩
          (scan_videos ⟨[], [("TV", "Show.S01E01.mkv")]⟩ [] [] 1 1).movies
          (scan_videos ⟨[], [("TV", "Show.S01E01.mkv")]⟩ [] [] 1 1).series
          (scan_videos ⟨[], [("TV", "Show.S01E01.mkv")]⟩ [] [] 1 1).mid
          (scan_videos ⟨[], [("TV", "Show.S01E01.mkv")]⟩ [] [] 1 1).sid).series⟩).map Ep.id
      = [2]
    ∧ (episodesOf ⟨(scan_videos ⟨[], [("TV", "Show.S01E01.mkv")]⟩ [] [] 1 1).movies,
        (scan_videos ⟨[], [("TV", "Show.S01E01.mkv")]⟩ [] [] 1 1).series⟩).map Ep.path
      = ["TV/Show.S01E01.mkv"]
    ∧ (1 : Nat) ≠ 2 := by
  refine ⟨by decide, by decide, by decide, by decide⟩

/-- C2 (amended): on any scan, a movie entry sharing its path with a
pre-scan entry keeps that entry's id (given the pre-scan paths are distinct,
as the path-keyed dict guarantees), and every item placed on the enrichment
queue has an empty rating at enqueue time; episode entries, however, are
rebuilt with fresh ids on every scan. -/
theorem scan_movie_ids_stable_and_queue_unrated :
    (∀ (inp : ScanInput) (movies0 : List MovieRec)
        (series0 : List (String × SeriesEntry)) (mid0 sid0 : Nat)
        (m' m0 : MovieRec),
        movies0.Pairwise (fun a b => a.path ≠ b.path) →
        m' ∈ (scan_videos inp movies0 series0 mid0 sid0).movies →
        m0 ∈ movies0 → m'.path = m0.path → m'.id = m0.id)
    ∧ (∀ (inp : ScanInput) (movies0 : List MovieRec)
        (series0 : List (String × SeriesEntry)) (mid0 sid0 : Nat)
        (q : QItem),
        q ∈ (scan_videos inp movies0 series0 mid0 sid0).queue →
        q.rating = "") := by
  constructor
  · intro inp movies0 series0 mid0 sid0 m' m0 hnd hm' hm0 hp
    simp only [scan_videos, resolveMovies] at hm'
    obtain ⟨hsOK, hrOK⟩ := moviePhase_storeRefsOK movies0 inp.movieFiles
      ⟨movies0, [], [], mid0⟩
      ⟨rfl, fun i _ => ⟨rfl, Or.inl rfl⟩⟩
      ⟨fun i hi => absurd hi (List.not_mem_nil _),
       fun m hm => absurd hm (List.not_mem_nil _)⟩
    have hm0some : (pathIdxOf movies0 m0.path).isSome = true :=
      lastIdxWhere_isSome _ movies0 m0 hm0 (decide_eq_true rfl)
    obtain ⟨ref, href, hres⟩ := List.mem_map.mp hm'
    cases ref with
    | new m =>
      have hmiss : pathIdxOf movies0 m.path = none := hrOK.newMiss m href
      have hm'm : m' = m := hres.symm
      rw [← hp, hm'm] at hm0some
      rw [hmiss] at hm0some
      cases hm0some
    | old i =>
      have hilt : i < movies0.length := hrOK.oldLt i href
      obtain ⟨hid, hdisj⟩ := hsOK.idp i hilt
      have hstore : (moviePhase (pathIdxOf movies0) (nameIdxOf movies0)
          inp.movieFiles ⟨movies0, [], [], mid0⟩).store.getD i mdefault
          = m' := hres
      rcases hdisj with hpe | hmiss
      · have hmem : movies0.getD i mdefault ∈ movies0 :=
          getD_mem movies0 i mdefault hilt
        have hpe' : (movies0.getD i mdefault).path = m0.path := by
          rw [← hpe, hstore, hp]
        have heq : movies0.getD i mdefault = m0 :=
          path_unique hnd hmem hm0 hpe'
        rw [← hstore, hid, heq]
      · rw [hstore, hp] at hmiss
        rw [hmiss] at hm0some
        cases hm0some
  · intro inp movies0 series0 mid0 sid0 q hq
    simp only [scan_videos] at hq
    rcases List.mem_append.mp hq with h1 | h2
    · rcases moviePhase_queue (pathIdxOf movies0) (nameIdxOf movies0)
        inp.movieFiles ⟨movies0, [], [], mid0⟩ q h1 with hin | hr
      · exact absurd hin (List.not_mem_nil q)
      · exact hr
    · exact finalSeriesPhase_queue_unrated series0 _ q h2

/-- Witness for `scan_movie_ids_stable_and_queue_unrated`. -/
theorem scan_movie_ids_stable_and_queue_unrated_witness :
    (⟨4, "Old", ["Old"], "", "M/Old.mkv", "pp", "7.5", "pl", none⟩
        : MovieRec).id
      = (⟨4, "Old", ["Old"], "", "M/Old.mkv", "pp", "7.5", "pl", none⟩
        : MovieRec).id
    ∧ (QItem.mv (newMovie 5 (mkPath "N" "New.mkv"))).rating = "" :=
  ⟨scan_movie_ids_stable_and_queue_unrated.1 ⟨[("M", "Old.mkv")], []⟩
      [⟨4, "Old", ["Old"], "", "M/Old.mkv", "pp", "7.5", "pl", none⟩] [] 5 1
      ⟨4, "Old", ["Old"], "", "M/Old.mkv", "pp", "7.5", "pl", none⟩
      ⟨4, "Old", ["Old"], "", "M/Old.mkv", "pp", "7.5", "pl", none⟩
      (by decide) (by decide) (by decide) rfl,
   scan_movie_ids_stable_and_queue_unrated.2 ⟨[("N", "New.mkv")], []⟩ [] [] 5 1
      (QItem.mv (newMovie 5 (mkPath "N" "New.mkv"))) (by decide)⟩

/-- C3 (counterexample): the series map is *not* replaced per pass — a scan
that discovers no series files leaves the stale series `"Old Show"` in
`series_data` (`dict.update` merges, it never drops absent keys). -/
theorem stale_series_survives_scan :
    (scan_videos ⟨[], []⟩ []
        [("Old Show", mkSeriesEntry (newSeriesMeta "Old Show")
            [(1, [⟨1, "Old Show", 1, 1, "TV/Old.Show.S01E01.mkv",
                   "Old.Show.S01E01.mkv"⟩])])] 1 2).series
      = [("Old Show", mkSeriesEntry (newSeriesMeta "Old Show")
            [(1, [⟨1, "Old Show", 1, 1, "TV/Old.Show.S01E01.mkv",
                   "Old.Show.S01E01.mkv"⟩])])]
    ∧ containsKey (scan_videos ⟨[], []⟩ []
        [("Old Show", mkSeriesEntry (newSeriesMeta "Old Show")
            [(1, [⟨1, "Old Show", 1, 1, "TV/Old.Show.S01E01.mkv",
                   "Old.Show.S01E01.mkv"⟩])])] 1 2).series "Old Show"
      = true := by
  refine ⟨by decide, by decide⟩

/-- C3 (amended): when the kept walk filenames contain no slash (as
`os.walk` guarantees) and are pairwise distinct, the movie list after a
scan is exactly the kept files of the walk, in walk order; when two kept
walk files share a basename that matches a pre-scan entry, the by-name
fallback hands out one shared dict mutated in place, so the movie list
holds duplicate references carrying the last path; and the series map is
only merged: a name found this pass gets the freshly built entry, any
other name keeps its old entry (stale series persist). -/
theorem scan_replaces_movies_merges_series :
    (∀ (inp : ScanInput) (movies0 : List MovieRec)
        (series0 : List (String × SeriesEntry)) (mid0 sid0 : Nat),
        (∀ rf ∈ inp.movieFiles, keepMovieFile rf.2 = true →
          ('/' : Char) ∉ rf.2.data) →
        (inp.movieFiles.filter (fun rf => keepMovieFile rf.2)).Pairwise
          (fun a b => a.2 ≠ b.2) →
        (scan_videos inp movies0 series0 mid0 sid0).movies.map MovieRec.path
          = (inp.movieFiles.filter (fun rf => keepMovieFile rf.2)).map
              (fun rf => mkPath rf.1 rf.2))
    ∧ (scan_videos ⟨[("B", "f.mkv"), ("C", "f.mkv")], []⟩
          [⟨4, "f", ["f"], "", "A/f.mkv", "", "7.5", "", none⟩]
          [] 5 1).movies.map MovieRec.path
        = ["C/f.mkv", "C/f.mkv"]
    ∧ (∀ (inp : ScanInput) (movies0 : List MovieRec)
        (series0 : List (String × SeriesEntry)) (mid0 sid0 : Nat)
        (k : String),
        lookupAssoc (scan_videos inp movies0 series0 mid0 sid0).series k
          = orOpt (lookupAssoc (finalSeriesPhase series0
              (seriesCollect inp.seriesFiles sid0 []).1).1 k)
              (lookupAssoc series0 k)) := by
  refine ⟨?_, by decide, ?_⟩
  · intro inp movies0 series0 mid0 sid0 hns hdist
    simp only [scan_videos]
    have h := moviePhase_paths_aux movies0 inp.movieFiles
      ⟨movies0, [], [], mid0⟩ hns hdist
      ⟨rfl, fun i _ => Or.inl rfl,
       fun i hi => absurd hi (List.not_mem_nil _)⟩
    simpa using h
  · intro inp movies0 series0 mid0 sid0 k
    simp only [scan_videos]
    exact dictUpdate_lookup series0
      (finalSeriesPhase series0 (seriesCollect inp.seriesFiles sid0 []).1).1 k

/-- Witness for `scan_replaces_movies_merges_series`: a scan over two kept
movie files with distinct slash-free names yields exactly those two paths
in walk order. -/
theorem scan_replaces_movies_merges_series_witness :
    (scan_videos ⟨[("M", "a.mkv"), ("M", "b.mkv")], []⟩ [] [] 1 1).movies.map
        MovieRec.path
      = ["M/a.mkv", "M/b.mkv"] :=
  (scan_replaces_movies_merges_series.1 ⟨[("M", "a.mkv"), ("M", "b.mkv")], []⟩
      [] [] 1 1 (by decide) (by decide)).trans (by decide)

/-- C9: persisting the catalog (`save_cache`) and reloading it
(`load_cache`) reproduces the catalog up to the stringification of the
integer season keys that `json.dump` performs: all movie records survive
identically, series names, metas and summary fields survive identically,
and the flattened episode list (ids, paths and all other fields) survives
identically. -/
theorem save_load_roundtrip :
    ∀ cat : Catalog,
      load_cache (save_cache cat) = some (toLoaded cat)
      ∧ (toLoaded cat).movies = cat.movies
      ∧ (toLoaded cat).series.map Prod.fst = cat.series.map Prod.fst
      ∧ (toLoaded cat).series.map (fun kv => kv.2.meta)
        = cat.series.map (fun kv => kv.2.meta)
      ∧ (toLoaded cat).series.map
          (fun kv => (kv.2.poster, kv.2.rating, kv.2.plot))
        = cat.series.map (fun kv => (kv.2.poster, kv.2.rating, kv.2.plot))
      ∧ episodesOfL (toLoaded cat) = episodesOf cat := by
  intro cat
  refine ⟨load_save cat, rfl, ?_, ?_, ?_, ?_⟩
  · simp [toLoaded]
  · simp [toLoaded, toLoadedEntry]
  · simp [toLoaded, toLoadedEntry]
  · unfold episodesOfL episodesOf toLoaded toLoadedEntry
    rw [List.map_map]
    refine congrArg List.flatten (List.map_congr_left ?_)
    intro kv _
    show (List.map Prod.snd
        (List.map (fun sv => (toString sv.1, sv.2)) kv.2.seasons)).flatten
      = (List.map Prod.snd kv.2.seasons).flatten
    rw [List.map_map]
    refine congrArg List.flatten (List.map_congr_left ?_)
    intro sv _
    rfl

/-- C8 (counterexample): `Se7en.S01E02.mkv` contains the token `S01E02`,
whose episode digits are `02` — but the scanner's separate
`re.search(r'[Ee](\d+)', f)` finds the earlier `e7` in `Se7en` first and
extracts episode 7, not 2. -/
theorem se7en_episode_digit_mismatch :
    "Se7en.S01E02.mkv".data
      = "Se7en.".data ++ 'S' :: ("01".data ++ 'E' :: ("02".data ++ ".mkv".data))
    ∧ natOfDigits "02".data = 2
    ∧ epFromFile 5 "TV" "Se7en.S01E02.mkv"
      = some ⟨5, "Se7en", 1, 7, "TV/Se7en.S01E02.mkv", "Se7en.S01E02.mkv"⟩
    ∧ (7 : Nat) ≠ 2 := by
  refine ⟨by decide, by decide, by decide, by decide⟩

/-- C8 (amended): a filename containing a case-insensitive
`S<digits>E<digits>` token is always excluded from the movie walk and, in
the series walk, always classified as an episode; the extracted season and
episode come from the *first* `[Ss]digit` / `[Ee]digit` occurrences in the
filename, so they equal exactly the token's digits whenever those
occurrences are unique (they may differ otherwise, as in `Se7en`). -/
theorem sdEd_classification :
    (∀ f : String, sdEdSearch f.data = true →
        keepMovieFile f = false
        ∧ ∀ (pIdx nIdx : String → Option Nat) (root : String)
            (rest : List (String × String)) (st : MWState),
            moviePhase pIdx nIdx ((root, f) :: rest) st
              = moviePhase pIdx nIdx rest st)
    ∧ (∀ (root f : String) (s_id : Nat) (pre d1 d2 tail : List Char)
        (s e : Char),
        videoExt f = true →
        f.data = pre ++ s :: (d1 ++ e :: (d2 ++ tail)) →
        isSChar s = true → d1 ≠ [] → d1.all digitCh = true →
        isEChar e = true → d2 ≠ [] → d2.all digitCh = true →
        (∀ t, tail.head? = some t → digitCh t = false) →
        (∀ j, j < f.data.length → occAt isSChar f.data j = true →
          j = pre.length) →
        (∀ j, j < f.data.length → occAt isEChar f.data j = true →
          j = pre.length + 1 + d1.length) →
        epFromFile s_id root f
          = some { id := s_id, title := seriesNameOf (mkPath root f)
                   season := natOfDigits d1, episode := natOfDigits d2
                   path := mkPath root f, filename := f }) := by
  constructor
  · intro f hsd
    have hk : keepMovieFile f = false := by simp [keepMovieFile, hsd]
    exact ⟨hk, fun pIdx nIdx root rest st => by
      rw [moviePhase_cons, movieStep_skip pIdx nIdx st (root, f) hk]⟩
  · intro root f s_id pre d1 d2 tail s e hext hdec hs hd1ne hd1all he hd2ne
      hd2all htail huniqS huniqE
    obtain ⟨a1, d1r, hd1c⟩ : ∃ a r, d1 = a :: r := by
      cases d1 with
      | nil => exact absurd rfl hd1ne
      | cons a r => exact ⟨a, r, rfl⟩
    obtain ⟨a2, d2r, hd2c⟩ : ∃ a r, d2 = a :: r := by
      cases d2 with
      | nil => exact absurd rfl hd2ne
      | cons a r => exact ⟨a, r, rfl⟩
    have ha1 : digitCh a1 = true := by
      rw [hd1c, List.all_cons] at hd1all
      exact ((Bool.and_eq_true _ _).mp hd1all).1
    have ha2 : digitCh a2 = true := by
      rw [hd2c, List.all_cons] at hd2all
      exact ((Bool.and_eq_true _ _).mp hd2all).1
    have hdropS : f.data.drop pre.length = s :: (d1 ++ e :: (d2 ++ tail)) := by
      rw [hdec, List.drop_left]
    have h1 : f.data = (pre ++ [s]) ++ (d1 ++ e :: (d2 ++ tail)) := by
      rw [hdec]
      simp
    have hdropS1 : f.data.drop (pre.length + 1) = d1 ++ e :: (d2 ++ tail) := by
      rw [h1]
      have hl : (pre ++ [s]).length = pre.length + 1 := by simp
      rw [← hl, List.drop_left]
    have h2 : f.data = ((pre ++ [s]) ++ d1) ++ (e :: (d2 ++ tail)) := by
      rw [hdec]
      simp
    have hdropE : f.data.drop (pre.length + 1 + d1.length)
        = e :: (d2 ++ tail) := by
      rw [h2]
      have hl : ((pre ++ [s]) ++ d1).length = pre.length + 1 + d1.length := by
        simp
        omega
      rw [← hl, List.drop_left]
    have h3 : f.data = (((pre ++ [s]) ++ d1) ++ [e]) ++ (d2 ++ tail) := by
      rw [hdec]
      simp
    have hdropE1 : f.data.drop (pre.length + 1 + d1.length + 1)
        = d2 ++ tail := by
      rw [h3]
      have hl : (((pre ++ [s]) ++ d1) ++ [e]).length
          = pre.length + 1 + d1.length + 1 := by
        simp
        omega
      rw [← hl, List.drop_left]
    have hsOcc : occAt isSChar f.data pre.length = true := by
      unfold occAt
      rw [hdropS, hd1c]
      simp [hs, ha1]
    have heOcc : occAt isEChar f.data (pre.length + 1 + d1.length) = true := by
      unfold occAt
      rw [hdropE, hd2c]
      simp [he, ha2]
    have htake1 : ((f.data.drop (pre.length + 1)).takeWhile digitCh) = d1 := by
      rw [hdropS1]
      exact takeWhile_append_exact digitCh d1 e _ hd1all (isEChar_not_digit e he)
    have htake2 : ((f.data.drop (pre.length + 1 + d1.length + 1)).takeWhile
        digitCh) = d2 := by
      rw [hdropE1]
      cases tail with
      | nil =>
        rw [List.append_nil]
        exact takeWhile_all_eq digitCh d2 hd2all
      | cons t ts =>
        exact takeWhile_append_exact digitCh d2 t ts hd2all (htail t rfl)
    have hSv : sDigitsSearch f.data = some (natOfDigits d1) := by
      obtain ⟨v, hv⟩ := Option.isSome_iff_exists.mp
        (digitRunSearch_complete isSChar f.data pre.length hsOcc)
      obtain ⟨j, hjocc, hjval⟩ := digitRunSearch_sound isSChar f.data v hv
      have hj : j = pre.length :=
        huniqS j (occAt_lt_length isSChar f.data j hjocc) hjocc
      rw [hj, htake1] at hjval
      unfold sDigitsSearch
      rw [hv, hjval]
    have hEv : eDigitsSearch f.data = some (natOfDigits d2) := by
      obtain ⟨v, hv⟩ := Option.isSome_iff_exists.mp
        (digitRunSearch_complete isEChar f.data _ heOcc)
      obtain ⟨j, hjocc, hjval⟩ := digitRunSearch_sound isEChar f.data v hv
      have hj : j = pre.length + 1 + d1.length :=
        huniqE j (occAt_lt_length isEChar f.data j hjocc) hjocc
      rw [hj, htake2] at hjval
      unfold eDigitsSearch
      rw [hv, hjval]
    have hsm : smSearch f.data = some (natOfDigits d1) := by
      simp [smSearch, hSv]
    have hem : emSearch f.data = some (natOfDigits d2) := by
      simp [emSearch, hEv]
    simp [epFromFile, hext, hsm, hem]

/-- Witness for `sdEd_classification` at `Show.Name.S02E05.WEBRip.mkv`
(series token season 2, episode 5; unique `[Ss]digit`/`[Ee]digit`
occurrences). -/
theorem sdEd_classification_witness :
    (keepMovieFile "Show.Name.S02E05.WEBRip.mkv" = false
     ∧ ∀ (pIdx nIdx : String → Option Nat) (root : String)
         (rest : List (String × String)) (st : MWState),
         moviePhase pIdx nIdx
             ((root, "Show.Name.S02E05.WEBRip.mkv") :: rest) st
           = moviePhase pIdx nIdx rest st)
    ∧ epFromFile 3 "TV" "Show.Name.S02E05.WEBRip.mkv"
      = some { id := 3
               title := seriesNameOf (mkPath "TV" "Show.Name.S02E05.WEBRip.mkv")
               season := natOfDigits "02".data
               episode := natOfDigits "05".data
               path := mkPath "TV" "Show.Name.S02E05.WEBRip.mkv"
               filename := "Show.Name.S02E05.WEBRip.mkv" } :=
  ⟨sdEd_classification.1 "Show.Name.S02E05.WEBRip.mkv" (by decide),
   sdEd_classification.2 "TV" "Show.Name.S02E05.WEBRip.mkv" 3
     "Show.Name.".data "02".data "05".data ".WEBRip.mkv".data 'S' 'E'
     (by decide) (by decide) (by decide) (by decide) (by decide) (by decide)
     (by decide) (by decide) (by decide) (by decide) (by decide)⟩

/-- C6 (counterexample): the parse produces both candidates, yet the worker
queries the provider only at `item['title']` — with a provider that misses
the primary title but would hit the colon-stripped secondary candidate, the
item is left unenriched. -/
theorem worker_ignores_second_candidate :
    (get_smart_title "Movies/King Arthur: Legend of the Sword (2017).mkv").1
      = ["King Arthur: Legend of the Sword",
         "King Arthur Legend of the Sword"]
    ∧ (get_smart_title "Movies/King Arthur: Legend of the Sword (2017).mkv").2
      = "2017"
    ∧ (fun t _ => if t = "King Arthur Legend of the Sword"
          then some (⟨"7.0", "p", "Action", some "2017", none⟩ : OmdbRes)
          else none : String → String → Option OmdbRes)
        "King Arthur Legend of the Sword" "2017" ≠ none
    ∧ worker_step "k"
        (fun t _ => if t = "King Arthur Legend of the Sword"
          then some (⟨"7.0", "p", "Action", some "2017", none⟩ : OmdbRes)
          else none)
        (fun _ => true)
        ⟨"9", "King Arthur: Legend of the Sword",
         ["King Arthur: Legend of the Sword",
          "King Arthur Legend of the Sword"],
         "2017", "/static/placeholder.png", "", "", none⟩
      = ⟨"9", "King Arthur: Legend of the Sword",
         ["King Arthur: Legend of the Sword",
          "King Arthur Legend of the Sword"],
         "2017", "/static/placeholder.png", "", "", none⟩ := by
  refine ⟨by decide, by decide, by decide, by decide⟩

/-- C6 (amended): `get_smart_title` returns a non-empty candidate list whose
first element is the cleaned name, adding the colon-stripped variant when
the name contains a colon; but the metadata worker consults only the primary
title — a provider miss at `item['title']` alone already ends the item's
processing. -/
theorem parse_candidates_and_primary_only_lookup :
    (∀ path : String,
        (get_smart_title path).1.head? = some (String.mk (cleanedOf path))
        ∧ (get_smart_title path).1 ≠ []
        ∧ ((cleanedOf path).contains ':' = true →
            (get_smart_title path).1
              = [String.mk (cleanedOf path),
                 String.mk ((cleanedOf path).filter (fun c => c != ':'))]))
    ∧ (∀ (key : String) (prov : String → String → Option OmdbRes)
        (pok : String → Bool) (item : WItem),
        prov item.title item.year = none →
        worker_step key prov pok item = item) := by
  constructor
  · intro path
    by_cases h : ':' ∈ cleanedOf path
    · simp [get_smart_title, candidateList, h]
    · simp [get_smart_title, candidateList, h]
  · intro key prov pok item h
    exact worker_step_miss key prov pok item h

/-- Witness for `parse_candidates_and_primary_only_lookup`. -/
theorem parse_candidates_and_primary_only_lookup_witness :
    worker_step "k2" (fun _ _ => none) (fun _ => true)
        ⟨"1", "T", ["T"], "", "", "", "", none⟩
      = ⟨"1", "T", ["T"], "", "", "", "", none⟩
    ∧ (get_smart_title "A.B.mkv").1.head?
      = some (String.mk (cleanedOf "A.B.mkv")) :=
  ⟨parse_candidates_and_primary_only_lookup.2 "k2" (fun _ _ => none)
      (fun _ => true) ⟨"1", "T", ["T"], "", "", "", "", none⟩ rfl,
   (parse_candidates_and_primary_only_lookup.1 "A.B.mkv").1⟩

/-- C10 (counterexample): when the provider succeeds but the poster download
fails, the failure is swallowed — yet the item does *not* keep its prior
metadata: rating, plot, genre and year are already overwritten; only the
poster reference keeps its prior value. -/
theorem poster_failure_keeps_enrichment :
    worker_step "k"
        (fun t _ => if t = "Movie"
          then some (⟨"8.8", "plots", "Drama", some "2001",
                      some "img-url"⟩ : OmdbRes)
          else none)
        (fun _ => false)
        ⟨"3", "Movie", ["Movie"], "", "/static/placeholder.png", "", "", none⟩
      = ⟨"3", "Movie", ["Movie"], "2001", "/static/placeholder.png",
         "8.8", "plots", some "Drama"⟩
    ∧ ("8.8" : String) ≠ "" := by
  exact ⟨by decide, by decide⟩

/-- C10 (amended): worker errors are swallowed per item and nothing is
re-queued: a provider timeout/malformed response/miss leaves the item fully
unchanged; on a provider hit the metadata fields are overwritten and a
poster-download failure (or absent poster) leaves only the poster reference
at its prior value; draining a queue processes each item exactly once. -/
theorem worker_per_item_error_handling :
    (∀ (key : String) (prov : String → String → Option OmdbRes)
        (pok : String → Bool) (item : WItem),
        prov item.title item.year = none →
        worker_step key prov pok item = item)
    ∧ (∀ (key : String) (prov : String → String → Option OmdbRes)
        (pok : String → Bool) (item : WItem) (res : OmdbRes),
        key ≠ "" → prov item.title item.year = some res →
        (worker_step key prov pok item).rating = res.rating
        ∧ (worker_step key prov pok item).plot = res.plot
        ∧ (worker_step key prov pok item).genre = some res.genre
        ∧ (worker_step key prov pok item).year = res.year.getD item.year
        ∧ (res.poster = none →
            (worker_step key prov pok item).poster = item.poster)
        ∧ (∀ url, res.poster = some url → pok url = false →
            (worker_step key prov pok item).poster = item.poster))
    ∧ (∀ (key : String) (prov : String → String → Option OmdbRes)
        (pok : String → Bool) (q : List WItem),
        workerRun key prov pok q = q.map (worker_step key prov pok)) := by
  refine ⟨?_, ?_, ?_⟩
  · intro key prov pok item h
    exact worker_step_miss key prov pok item h
  · intro key prov pok item res hkey hres
    rw [worker_step_hit key prov pok item res hkey hres]
    refine ⟨rfl, rfl, rfl, rfl, ?_, ?_⟩
    · intro hp
      simp [hp]
    · intro url hp hfail
      simp [hp, hfail]
  · intro key prov pok q
    induction q with
    | nil => rfl
    | cons i rest ih => simp [workerRun, ih]

/-- Witness for `worker_per_item_error_handling`. -/
theorem worker_per_item_error_handling_witness :
    worker_step "kk" (fun _ _ => none) (fun _ => true)
        ⟨"2", "X", ["X"], "", "pp", "r0", "pl", none⟩
      = ⟨"2", "X", ["X"], "", "pp", "r0", "pl", none⟩
    ∧ (worker_step "kk" (fun _ _ => some ⟨"9.0", "pl2", "G", none, none⟩)
        (fun _ => true) ⟨"2", "X", ["X"], "y0", "pp", "", "", none⟩).rating
      = "9.0" :=
  ⟨worker_per_item_error_handling.1 "kk" (fun _ _ => none) (fun _ => true)
      ⟨"2", "X", ["X"], "", "pp", "r0", "pl", none⟩ rfl,
   (worker_per_item_error_handling.2.1 "kk"
      (fun _ _ => some ⟨"9.0", "pl2", "G", none, none⟩) (fun _ => true)
      ⟨"2", "X", ["X"], "y0", "pp", "", "", none⟩
      ⟨"9.0", "pl2", "G", none, none⟩ (by decide) rfl).1⟩

end HomeTheater
